import Mathlib

/-!
Verification of the teriyaki incremental RDF-index maintainer.

The development shallowly embeds the graph model (`src/classes/meta.rs`),
the deletion maintenance pass (`src/updater/deletion.rs`) and the snapshot
format.  `HashMap<u32, V>` is embedded as an association list
`List (Nat × V)` with first-match lookup; `get`/`insert`/`remove` are
`mlookup`/`minsert`/`mremove` below.  Fallible operations (Rust `unwrap`,
`panic!`, slice indexing) return `Option`, `none` marking a fatal abort.
Machine `u32`/`usize` values are embedded as `Nat`; the single place where
wrap-around semantics matter (the bitwise complement in `to_single_node`)
is modelled with an explicit `% 2 ^ 64`.
-/

namespace Teriyaki

/-- `HashMap::get`: first entry with the given key. -/
def mlookup {α : Type} (l : List (Nat × α)) (k : Nat) : Option α :=
  match l with
  | [] => none
  | p :: rest => if p.1 = k then some p.2 else mlookup rest k

/-- `HashMap::insert`: replace the entry for `k` if present, else append. -/
def minsert {α : Type} (l : List (Nat × α)) (k : Nat) (v : α) : List (Nat × α) :=
  match l with
  | [] => [(k, v)]
  | p :: rest => if p.1 = k then (k, v) :: rest else p :: minsert rest k v

/-- `HashMap::remove`: drop the (first) entry with the given key. -/
def mremove {α : Type} (l : List (Nat × α)) (k : Nat) : List (Nat × α) :=
  match l with
  | [] => []
  | p :: rest => if p.1 = k then rest else p :: mremove rest k

/-- The key sets of a `HashMap` embedding are duplicate-free. -/
def nodupKeys {α : Type} (l : List (Nat × α)) : Prop :=
  (l.map Prod.fst).Nodup

/-! ## Data model (`src/classes/meta.rs` and `src/parser`) -/

/-- Modelled from the spec: `parser/triple.rs` is not under `src/`; §3 of the
spec defines a triple as an ordered fact `(subject, predicate, object)`, and
`deletion.rs`/`meta.rs` access the fields `sub`, `pred`, `obj`. -/
structure Triple where
  sub : Nat
  pred : Nat
  obj : Nat
deriving DecidableEq

/-- `NodeInfo` from `meta.rs`: `parent`, `incoming`, `outgoing`.  Edge lists
are `Vec<Vec<u32>>` in the source, but every edge the program builds is a
two-element vector `[predicate, other-endpoint]` (the source's own comment
says the type should be `Vec<[u32; 2]>`), so edges are embedded as pairs:
`x[0]` is `.1`, `x[1]` is `.2`. -/
structure NodeInfo where
  parent : Option Nat
  incoming : List (Nat × Nat)
  outgoing : List (Nat × Nat)
deriving DecidableEq

/-- The `Meta` graph model: supernode-id → member list, node-id → record. -/
structure Meta where
  supernodes : List (Nat × List Nat)
  nodes : List (Nat × NodeInfo)
deriving DecidableEq

/-- `Meta::contains`. -/
def Meta.contains (m : Meta) (node : Nat) : Bool :=
  (mlookup m.nodes node).isSome || (mlookup m.supernodes node).isSome

/-- `Meta::contains_supernode`. -/
def Meta.containsSupernode (m : Meta) (node : Nat) : Bool :=
  (mlookup m.supernodes node).isSome

/-- `Meta::new_node`.  Panics (`none`) when the id already exists.  Note the
source always passes `incoming = vec![]` and `outgoing = vec![vec![pred,
other]]`, for the subject and the object role alike. -/
def Meta.new_node (m : Meta) (triple : Triple) (is_sub : Bool) : Option Meta :=
  let node := if is_sub then triple.sub else triple.obj
  let other := if is_sub then triple.obj else triple.sub
  if m.contains node then none
  else some { m with nodes := minsert m.nodes node ⟨none, [], [(triple.pred, other)]⟩ }

/-- `Meta::add_outgoing`: `nodes.get_mut(&sub).unwrap().outgoing.push(...)`. -/
def Meta.add_outgoing (m : Meta) (triple : Triple) : Option Meta :=
  match mlookup m.nodes triple.sub with
  | none => none
  | some info =>
      let info' := { info with outgoing := info.outgoing ++ [(triple.pred, triple.obj)] }
      some { m with nodes := minsert m.nodes triple.sub info' }

/-- `Meta::add_incoming`. -/
def Meta.add_incoming (m : Meta) (triple : Triple) : Option Meta :=
  match mlookup m.nodes triple.obj with
  | none => none
  | some info =>
      let info' := { info with incoming := info.incoming ++ [(triple.pred, triple.sub)] }
      some { m with nodes := minsert m.nodes triple.obj info' }

/-- `Meta::get_parent`: outer `none` is the `unwrap` panic on a missing node. -/
def Meta.get_parent (m : Meta) (node : Nat) : Option (Option Nat) :=
  (mlookup m.nodes node).map (·.parent)

/-- `Meta::remove_from_supernode`: remove `node` from its parent's member
list (`retain(|x| *x != *node)`) and clear its `parent` field. -/
def Meta.remove_from_supernode (m : Meta) (node : Nat) : Option Meta :=
  match mlookup m.nodes node with
  | none => none
  | some info =>
      match info.parent with
      | none => none
      | some p =>
          match mlookup m.supernodes p with
          | none => none
          | some mems =>
              some { supernodes := minsert m.supernodes p (mems.filter (fun x => x ≠ node)),
                     nodes := minsert m.nodes node { info with parent := none } }

/-- `Meta::supernode_len`: panics on a non-supernode id. -/
def Meta.supernode_len (m : Meta) (node : Nat) : Option Nat :=
  (mlookup m.supernodes node).map List.length

/-- The width of `usize` on the 64-bit targets the program runs on. -/
def USIZE : Nat := 2 ^ 64

/-- `Meta::to_single_node`.  The source's second guard is
`!self.supernode_len(snode) == 1` where `!` is Rust's **bitwise** complement
on `usize`, i.e. the guard fires iff `2^64 - 1 - len = 1`; it is embedded
literally.  Indexing `[0]` into an empty member list and the `get_mut`
unwrap are the remaining panics. -/
def Meta.to_single_node (m : Meta) (snode : Nat) : Option Meta :=
  match mlookup m.supernodes snode with
  | none => none
  | some mems =>
      if USIZE - 1 - mems.length % USIZE = 1 then none
      else
        match mems.head? with
        | none => none
        | some node =>
            match mlookup m.nodes node with
            | none => none
            | some info =>
                some { supernodes := mremove m.supernodes snode,
                       nodes := minsert m.nodes node { info with parent := none } }

/-- The `for s in sn { self.nodes.get_mut(s).unwrap().set_parent(new) }` loop
inside `new_snode`. -/
def setParents (nodes : List (Nat × NodeInfo)) (mems : List Nat) (new : Nat) :
    Option (List (Nat × NodeInfo)) :=
  match mems with
  | [] => some nodes
  | s :: rest =>
      match mlookup nodes s with
      | none => none
      | some info => setParents (minsert nodes s { info with parent := some new }) rest new

/-- The `for n in old` loop of `new_snode`, threading the state and the
member list under construction. -/
def newSnodeLoop (m : Meta) (old : List Nat) (new : Nat) (acc : List Nat) :
    Option (Meta × List Nat) :=
  match old with
  | [] => some (m, acc)
  | n :: rest =>
      match mlookup m.supernodes n with
      | some sn =>
          match setParents m.nodes sn new with
          | none => none
          | some nodes' =>
              newSnodeLoop ⟨mremove m.supernodes n, nodes'⟩ rest new (acc ++ sn)
      | none =>
          match mlookup m.nodes n with
          | none => none
          | some info =>
              newSnodeLoop { m with nodes := minsert m.nodes n { info with parent := some new } }
                rest new (acc ++ [n])

/-- `Meta::new_snode`: absorb each id of `old` (members of an existing
supernode, or the plain node itself), then insert the collected list under
`new`. -/
def Meta.new_snode (m : Meta) (old : List Nat) (new : Nat) : Option Meta :=
  (newSnodeLoop m old new []).map
    (fun r => { r.1 with supernodes := minsert r.1.supernodes new r.2 })

/-! ## Snapshot format (`serialize` / `deserialize`) -/

/-- A supernode record of the snapshot file (`parser/meta.rs::Supernode`). -/
structure Supernode where
  i : Nat
  g : List Nat
deriving DecidableEq

/-- A node record of the snapshot file (`parser/meta.rs::Node`). -/
structure SnapNode where
  i : Nat
  p : Option Nat
  n : List (Nat × Nat)
  o : List (Nat × Nat)
deriving DecidableEq

/-- The snapshot file (`parser/meta.rs::MetaFile`). -/
structure MetaFile where
  s : List Supernode
  q : List SnapNode
deriving DecidableEq

/-- `Meta::serialize`: project both maps into flat record sequences. -/
def Meta.serialize (m : Meta) : MetaFile :=
  { s := m.supernodes.map (fun kv => ⟨kv.1, kv.2⟩),
    q := m.nodes.map (fun kv => ⟨kv.1, kv.2.parent, kv.2.incoming, kv.2.outgoing⟩) }

/-- `Meta::deserialize`: re-insert every record into empty maps. -/
def Meta.deserialize (file : MetaFile) : Meta :=
  { supernodes := file.s.foldl (fun acc sn => minsert acc sn.i sn.g) [],
    nodes := file.q.foldl (fun acc nd => minsert acc nd.i ⟨nd.p, nd.n, nd.o⟩) [] }

/-! ## Deletion maintenance (`src/updater/deletion.rs`) -/

/-- Modelled from the spec: `parser/clique.rs` is not under `src/`; §6 of the
spec says a clique exposes its member-id list and its predicate fingerprint,
and `deletion.rs` accesses the fields `nodes` and `preds`. -/
structure Clique where
  nodes : List Nat
  preds : List Nat
deriving DecidableEq

/-- Modelled from the spec: the `Stuff` state consumed by `deletion.rs`
(`parser/mod.rs` shows the corresponding `MetaData` struct) — the id →
`[source-clique-index, target-clique-index]` map and the two graph-model
maps.  The dictionary and the full triple list are never touched by the
deletion pass and are omitted. -/
structure Stuff where
  index_map : List (Nat × (Nat × Nat))
  supernodes : List (Nat × List Nat)
  nodes : List (Nat × NodeInfo)
deriving DecidableEq

/-- Modelled from the spec: `updater/funcs.rs` is not under `src/`.  Per
§4.1, `remove_from_supernode` detaches a node: it removes `node` from the
member list of supernode `supernode_id` and clears `node`'s `parent` field;
the lookups are fatal (`none`) on missing ids. -/
def removeFromSupernodeF (stuff : Stuff) (supernode_id : Nat) (node : Nat) : Option Stuff :=
  match mlookup stuff.supernodes supernode_id with
  | none => none
  | some mems =>
      match mlookup stuff.nodes node with
      | none => none
      | some info =>
          let nodes' := minsert stuff.nodes node { info with parent := none }
          let supernodes' := minsert stuff.supernodes supernode_id (mems.filter (fun x => x ≠ node))
          some { stuff with supernodes := supernodes', nodes := nodes' }

/-- Modelled from the spec: `updater/funcs.rs::get_node_index` — §6's index
map sends an id to `[source-clique-index, target-clique-index]`; the third
argument selects the component.  Fatal on an id absent from the map. -/
def getNodeIndex (stuff : Stuff) (node : Nat) (which : Nat) : Option Nat :=
  match mlookup stuff.index_map node with
  | none => none
  | some idx => some (if which = 0 then idx.1 else idx.2)

/-- Modelled from the spec: `updater/funcs.rs::to_single_node` — §4.1's
collapse (requires exactly one member: clear that member's `parent`, delete
the supernode record) combined with §4.2(iii)'s clique synchronisation: the
source/target clique entries at the two given indices are updated to stand
for the now-singleton node (the collapsed supernode id is replaced by the
member id in their member lists).  Fatal on missing ids or indices. -/
def toSingleNodeF (stuff : Stuff) (sc tc : List Clique) (snode : Nat)
    (source_index target_index : Nat) : Option (Stuff × List Clique × List Clique) :=
  match mlookup stuff.supernodes snode with
  | none => none
  | some mems =>
      match mems with
      | [node] =>
          match mlookup stuff.nodes node with
          | none => none
          | some info =>
              match sc[source_index]?, tc[target_index]? with
              | some scl, some tcl =>
                  let stuff' : Stuff := { stuff with
                    supernodes := mremove stuff.supernodes snode,
                    nodes := minsert stuff.nodes node { info with parent := none } }
                  let scl' := { scl with nodes := scl.nodes.map (fun x => if x = snode then node else x) }
                  let tcl' := { tcl with nodes := tcl.nodes.map (fun x => if x = snode then node else x) }
                  some (stuff', sc.set source_index scl', tc.set target_index tcl')
              | _, _ => none
      | _ => none

/-- `remove_from_node`: `retain(|x| x[1] != node && x[0] != triple.pred)` on
the subject's outgoing list (`is_sub`) or the object's incoming list. -/
def removeFromNode (nodes : List (Nat × NodeInfo)) (triple : Triple) (is_sub : Bool) :
    Option (List (Nat × NodeInfo)) :=
  let node := if is_sub then triple.sub else triple.obj
  match mlookup nodes node with
  | none => none
  | some info =>
      if is_sub then
        let info' := { info with outgoing := info.outgoing.filter (fun x => x.2 ≠ node ∧ x.1 ≠ triple.pred) }
        some (minsert nodes node info')
      else
        let info' := { info with incoming := info.incoming.filter (fun x => x.2 ≠ node ∧ x.1 ≠ triple.pred) }
        some (minsert nodes node info')

/-- `group_outgoing_edges`: flatten the outgoing edge vectors into one
vector of raw `u32`s (predicates *and* endpoints interleaved). -/
def groupOutgoingEdges (nodeinfo : NodeInfo) : List Nat :=
  (nodeinfo.outgoing.map (fun e => [e.1, e.2])).flatten

/-- The `for i in 0..preds.len()` loop of `remove_preds_in_clique`: at step
`i`, retain every fingerprint entry different from `outgoing_edges[i]`;
indexing past the end of `outgoing_edges` panics. -/
def predsLoop (outgoing_edges : List Nat) (preds : List Nat) (idxs : List Nat) :
    Option (List Nat) :=
  match idxs with
  | [] => some preds
  | i :: rest =>
      match outgoing_edges[i]? with
      | none => none
      | some e => predsLoop outgoing_edges (preds.filter (fun x => x ≠ e)) rest

/-- `remove_preds_in_clique`: when the clique of the touched endpoint has
exactly one member, run the retain loop over its fingerprint.  `nodeinfo` is
the node record the caller captured *before* the edge removal. -/
def removePredsInClique (stuff : Stuff) (nodeinfo : NodeInfo) (triple : Triple)
    (clique : List Clique) (is_sub : Bool) : Option (List Clique) :=
  let node := if is_sub then triple.sub else triple.obj
  match getNodeIndex stuff node 0 with
  | none => none
  | some node_index =>
      let outgoing_edges := groupOutgoingEdges nodeinfo
      match clique[node_index]? with
      | none => none
      | some cl =>
          if cl.nodes.length = 1 then
            match predsLoop outgoing_edges cl.preds (List.range cl.preds.length) with
            | none => none
            | some preds' => some (clique.set node_index { cl with preds := preds' })
          else some clique

/-- `intersects_for_vec_vec`: some element of `v1` occurs in `v2`. -/
def intersectsForVecVec (v1 v2 : List (Nat × Nat)) : Bool :=
  v1.any (fun n => v2.contains n)

/-- `get_inc_and_out`: concatenated incoming and outgoing lists of the given
members, in order; fatal on a member without a node record. -/
def getIncAndOut (nodes : List (Nat × NodeInfo)) (snode : List Nat) :
    Option (List (Nat × Nat) × List (Nat × Nat)) :=
  match snode with
  | [] => some ([], [])
  | n :: rest =>
      match mlookup nodes n with
      | none => none
      | some info =>
          match getIncAndOut nodes rest with
          | none => none
          | some r => some (info.incoming ++ r.1, info.outgoing ++ r.2)

/-- `handle_split`: read `node`'s record, unwrap its parent, compare its
edge lists with those of the parent's other members, and — exactly as the
source is written — call `remove_from_supernode` when they **do**
intersect. -/
def handleSplit (stuff : Stuff) (node : Nat) : Option Stuff :=
  match mlookup stuff.nodes node with
  | none => none
  | some nodeinfo =>
      match nodeinfo.parent with
      | none => none
      | some supernode_id =>
          match mlookup stuff.supernodes supernode_id with
          | none => none
          | some snode0 =>
              let node_inc := nodeinfo.incoming
              let node_out := nodeinfo.outgoing
              let snode := snode0.filter (fun x => x ≠ node)
              match getIncAndOut stuff.nodes snode with
              | none => none
              | some rest =>
                  if intersectsForVecVec node_inc rest.1 || intersectsForVecVec node_out rest.2 then
                    removeFromSupernodeF stuff supernode_id node
                  else some stuff

/-- `handle_singleton_supernodes`: look the id up in the index map, and
collapse it via `to_single_node` when its member list has length one. -/
def handleSingletonSupernodes (stuff : Stuff) (sc tc : List Clique) (snode : Nat) :
    Option (Stuff × List Clique × List Clique) :=
  match mlookup stuff.index_map snode with
  | none => none
  | some idx =>
      match mlookup stuff.supernodes snode with
      | none => none
      | some mems =>
          if mems.length = 1 then toSingleNodeF stuff sc tc snode idx.1 idx.2
          else some (stuff, sc, tc)

/-- The block `handle_deletion` runs for an endpoint whose `parent` is
`Some(p)`: fetch `supernodes[p].clone()[0]` (indexing an empty vector
panics), call `remove_from_supernode` with that *first member* as the
supernode id and the parent id `p` as the node — exactly as the source is
written — then `handle_split` and `handle_singleton_supernodes` on `p`. -/
def handleClusteredEndpoint (stuff : Stuff) (sc tc : List Clique) (p : Nat) :
    Option (Stuff × List Clique × List Clique) :=
  match mlookup stuff.supernodes p with
  | none => none
  | some mems =>
      match mems.head? with
      | none => none
      | some supernode_id =>
          match removeFromSupernodeF stuff supernode_id p with
          | none => none
          | some stuff1 =>
              match handleSplit stuff1 p with
              | none => none
              | some stuff2 => handleSingletonSupernodes stuff2 sc tc p

/-- `handle_deletion`: both endpoint records (and so both `parent` fields)
are read up front; each endpoint then takes the clustered path or the
plain path (edge removal, and for the subject also the clique pruning with
the record snapshot captured at entry). -/
def handleDeletion (stuff : Stuff) (triple : Triple) (sc tc : List Clique) :
    Option (Stuff × List Clique × List Clique) :=
  match mlookup stuff.nodes triple.sub, mlookup stuff.nodes triple.obj with
  | some subInfo, some objInfo =>
      let step1 : Option (Stuff × List Clique × List Clique) :=
        match subInfo.parent with
        | some p_sub => handleClusteredEndpoint stuff sc tc p_sub
        | none =>
            match removeFromNode stuff.nodes triple true with
            | none => none
            | some nodes1 =>
                let stuff1 : Stuff := { stuff with nodes := nodes1 }
                match removePredsInClique stuff1 subInfo triple sc true with
                | none => none
                | some sc1 => some (stuff1, sc1, tc)
      match step1 with
      | none => none
      | some r1 =>
          match objInfo.parent with
          | some p_obj => handleClusteredEndpoint r1.1 r1.2.1 r1.2.2 p_obj
          | none =>
              match removeFromNode r1.1.nodes triple false with
              | none => none
              | some nodes1 => some ({ r1.1 with nodes := nodes1 }, r1.2.1, r1.2.2)
  | _, _ => none

/-- `delete_triple`: run `handle_deletion` over the whole batch. -/
def deleteTriple (deletions : List Triple) (sc tc : List Clique) (stuff : Stuff) :
    Option (Stuff × List Clique × List Clique) :=
  match deletions with
  | [] => some (stuff, sc, tc)
  | t :: rest =>
      match handleDeletion stuff t sc tc with
      | none => none
      | some r => deleteTriple rest r.2.1 r.2.2 r.1

/-! ## Spec-side predicates -/

/-- The parent-consistency condition of one node record `(a, i)` against a
supernode map: `i.parent = Some(P)` iff `P` is a supernode entry whose
member list counts `a` exactly once, and a parentless `a` appears in no
member list. -/
def pcEntry (sns : List (Nat × List Nat)) (a : Nat) (i : NodeInfo) : Prop :=
  (i.parent.isSome = true → ∃ q ∈ sns, i.parent = some q.1) ∧
  (∀ q ∈ sns, i.parent = some q.1 → q.2.count a = 1) ∧
  (∀ q ∈ sns, q.2.count a = 1 → i.parent = some q.1) ∧
  (i.parent = none → ∀ q ∈ sns, a ∉ q.2)

/-- Parent consistency (spec §8 / §3 invariant 2): a node's `parent` is
`Some(P)` iff `P` is a supernode whose member list contains the node's id
exactly once, and a node whose parent is `None` appears in no supernode's
member list. -/
def parentConsistent (m : Meta) : Prop :=
  ∀ p ∈ m.nodes, pcEntry m.supernodes p.1 p.2

/-- Structural well-formedness: duplicate-free key lists (a `HashMap`
guarantee) and member lists that are duplicate-free (spec §3) and only name
registered nodes. -/
def metaWF (m : Meta) : Prop :=
  nodupKeys m.nodes ∧ nodupKeys m.supernodes ∧
    ∀ q ∈ m.supernodes, q.2.Nodup ∧ ∀ n ∈ q.2, (mlookup m.nodes n).isSome = true

/-- Spec §8: no supernode has exactly one member. -/
def noSingletons (sns : List (Nat × List Nat)) : Prop :=
  ∀ q ∈ sns, q.2.length ≠ 1

/-- Documented precondition of `new_node` (§4.1): the id does not exist. -/
def newNodePre (m : Meta) (triple : Triple) (is_sub : Bool) : Prop :=
  m.contains (if is_sub then triple.sub else triple.obj) = false

/-- Documented precondition of `add_outgoing` (§4.1): the subject's record
exists. -/
def addOutgoingPre (m : Meta) (triple : Triple) : Prop :=
  (mlookup m.nodes triple.sub).isSome = true

/-- Documented precondition of `add_incoming` (§4.1): the object's record
exists. -/
def addIncomingPre (m : Meta) (triple : Triple) : Prop :=
  (mlookup m.nodes triple.obj).isSome = true

/-- Documented precondition of `remove_from_supernode` (§4.1): the id
currently has a parent. -/
def removeFromSupernodePre (m : Meta) (node : Nat) : Prop :=
  ∃ info, mlookup m.nodes node = some info ∧ info.parent.isSome = true

/-- Documented precondition of `to_single_node` (§4.1): the supernode exists
and has exactly one member. -/
def toSingleNodePre (m : Meta) (snode : Nat) : Prop :=
  ∃ mems, mlookup m.supernodes snode = some mems ∧ mems.length = 1

/-- The member list `new_snode` builds: per id of `old`, the members of the
supernode it names, or the id itself, concatenated in order. -/
def expandMems (m : Meta) (old : List Nat) : List Nat :=
  (old.map (fun n =>
    match mlookup m.supernodes n with
    | some mems => mems
    | none => [n])).flatten

/-- Documented precondition of `new_snode` (§4.1): `new` is fresh and every
id of `old` names a plain (parentless) node or an existing supernode; the
ids to be merged are pairwise distinct (member lists carry no duplicates,
§3). -/
def newSnodePre (m : Meta) (old : List Nat) (new : Nat) : Prop :=
  m.contains new = false ∧
  (∀ n ∈ old,
    (mlookup m.supernodes n = none ∧
      ∃ info, mlookup m.nodes n = some info ∧ info.parent = none) ∨
    (mlookup m.supernodes n).isSome = true) ∧
  (expandMems m old).Nodup ∧
  (old.filter (fun n => (mlookup m.supernodes n).isSome)).Nodup

instance instDecidablePcEntry (sns : List (Nat × List Nat)) (a : Nat) (i : NodeInfo) :
    Decidable (pcEntry sns a i) := by
  unfold pcEntry
  exact inferInstance

instance instDecidableParentConsistent (m : Meta) : Decidable (parentConsistent m) := by
  unfold parentConsistent
  exact inferInstance

instance instDecidableMetaWF (m : Meta) : Decidable (metaWF m) := by
  unfold metaWF nodupKeys
  exact inferInstance

instance instDecidableNoSingletons (sns : List (Nat × List Nat)) :
    Decidable (noSingletons sns) := by
  unfold noSingletons
  exact inferInstance

instance instDecidableNodupKeys {α : Type} (l : List (Nat × α)) :
    Decidable (nodupKeys l) := by
  unfold nodupKeys
  exact inferInstance

instance instDecidableNewNodePre (m : Meta) (t : Triple) (b : Bool) :
    Decidable (newNodePre m t b) := by
  unfold newNodePre
  exact inferInstance

instance instDecidableRemoveFromSupernodePre (m : Meta) (node : Nat) :
    Decidable (removeFromSupernodePre m node) :=
  match h : mlookup m.nodes node with
  | none =>
      isFalse (by rintro ⟨info, hi, _⟩; rw [h] at hi; cases hi)
  | some info =>
      if hp : info.parent.isSome = true then
        isTrue ⟨info, h, hp⟩
      else
        isFalse (by rintro ⟨info', hi, hp'⟩; rw [h] at hi; cases hi; exact hp hp')

instance instDecidableToSingleNodePre (m : Meta) (snode : Nat) :
    Decidable (toSingleNodePre m snode) :=
  match h : mlookup m.supernodes snode with
  | none =>
      isFalse (by rintro ⟨mems, hi, _⟩; rw [h] at hi; cases hi)
  | some mems =>
      if hp : mems.length = 1 then
        isTrue ⟨mems, h, hp⟩
      else
        isFalse (by rintro ⟨mems', hi, hp'⟩; rw [h] at hi; cases hi; exact hp hp')

/-! ## Association-map lemmas -/

theorem mlookup_nil {α : Type} (k : Nat) : mlookup ([] : List (Nat × α)) k = none := rfl

theorem mlookup_cons {α : Type} (p : Nat × α) (rest : List (Nat × α)) (k : Nat) :
    mlookup (p :: rest) k = if p.1 = k then some p.2 else mlookup rest k := rfl

theorem minsert_cons {α : Type} (p : Nat × α) (rest : List (Nat × α)) (k : Nat) (v : α) :
    minsert (p :: rest) k v =
      if p.1 = k then (k, v) :: rest else p :: minsert rest k v := rfl

theorem mremove_cons {α : Type} (p : Nat × α) (rest : List (Nat × α)) (k : Nat) :
    mremove (p :: rest) k = if p.1 = k then rest else p :: mremove rest k := rfl

theorem mlookup_isSome_iff_mem_keys {α : Type} (l : List (Nat × α)) (k : Nat) :
    (mlookup l k).isSome = true ↔ k ∈ l.map Prod.fst := by
  induction l with
  | nil => simp [mlookup]
  | cons p rest ih =>
    by_cases hp : p.1 = k
    · simp [mlookup, hp]
    · rw [mlookup_cons, if_neg hp]
      simp only [List.map_cons, List.mem_cons, ih]
      constructor
      · intro h; exact Or.inr h
      · rintro (h | h)
        · omega
        · exact h

theorem mlookup_eq_none_iff_not_mem_keys {α : Type} (l : List (Nat × α)) (k : Nat) :
    mlookup l k = none ↔ k ∉ l.map Prod.fst := by
  rw [← mlookup_isSome_iff_mem_keys]
  cases mlookup l k <;> simp

theorem mlookup_minsert_self {α : Type} (l : List (Nat × α)) (k : Nat) (v : α) :
    mlookup (minsert l k v) k = some v := by
  induction l with
  | nil => simp [minsert, mlookup]
  | cons p rest ih =>
    unfold minsert
    by_cases h : p.1 = k
    · rw [if_pos h]; unfold mlookup; rw [if_pos rfl]
    · rw [if_neg h]; unfold mlookup; rw [if_neg h]; exact ih

theorem mlookup_minsert_ne {α : Type} (l : List (Nat × α)) (k k' : Nat) (v : α)
    (h : k' ≠ k) : mlookup (minsert l k v) k' = mlookup l k' := by
  induction l with
  | nil =>
    show mlookup [(k, v)] k' = none
    rw [mlookup_cons, if_neg (show ¬ (k, v).1 = k' by simp; omega)]
    rfl
  | cons p rest ih =>
    rw [minsert_cons]
    by_cases hp : p.1 = k
    · rw [if_pos hp, mlookup_cons, mlookup_cons,
        if_neg (show ¬ (k, v).1 = k' by simp; omega), if_neg (by omega)]
    · rw [if_neg hp, mlookup_cons, mlookup_cons]
      by_cases hq : p.1 = k'
      · rw [if_pos hq, if_pos hq]
      · rw [if_neg hq, if_neg hq]; exact ih

theorem mlookup_mremove_ne {α : Type} (l : List (Nat × α)) (k k' : Nat)
    (h : k' ≠ k) : mlookup (mremove l k) k' = mlookup l k' := by
  induction l with
  | nil => simp [mremove]
  | cons p rest ih =>
    rw [mremove_cons]
    by_cases hp : p.1 = k
    · rw [if_pos hp, mlookup_cons, if_neg (by omega)]
    · rw [if_neg hp, mlookup_cons, mlookup_cons]
      by_cases hq : p.1 = k'
      · rw [if_pos hq, if_pos hq]
      · rw [if_neg hq, if_neg hq]; exact ih

theorem keys_minsert_of_mem {α : Type} (l : List (Nat × α)) (k : Nat) (v : α)
    (h : k ∈ l.map Prod.fst) :
    (minsert l k v).map Prod.fst = l.map Prod.fst := by
  induction l with
  | nil => simp at h
  | cons p rest ih =>
    unfold minsert
    by_cases hp : p.1 = k
    · rw [if_pos hp]
      simp [hp]
    · rw [if_neg hp]
      simp only [List.map_cons, List.mem_cons] at h
      rcases h with h | h
      · omega
      · simp [ih h]

theorem keys_minsert_of_not_mem {α : Type} (l : List (Nat × α)) (k : Nat) (v : α)
    (h : k ∉ l.map Prod.fst) :
    (minsert l k v).map Prod.fst = l.map Prod.fst ++ [k] := by
  induction l with
  | nil => simp [minsert]
  | cons p rest ih =>
    simp only [List.map_cons, List.mem_cons] at h
    push_neg at h
    unfold minsert
    rw [if_neg (by omega)]
    simp [ih h.2]

theorem nodupKeys_minsert {α : Type} (l : List (Nat × α)) (k : Nat) (v : α)
    (h : nodupKeys l) : nodupKeys (minsert l k v) := by
  unfold nodupKeys at *
  by_cases hm : k ∈ l.map Prod.fst
  · rw [keys_minsert_of_mem l k v hm]
    exact h
  · rw [keys_minsert_of_not_mem l k v hm]
    simp [List.nodup_append, h, hm]

theorem mem_keys_mremove_sub {α : Type} (l : List (Nat × α)) (k k' : Nat)
    (h : k' ∈ (mremove l k).map Prod.fst) : k' ∈ l.map Prod.fst := by
  induction l with
  | nil => exact h
  | cons p rest ih =>
    unfold mremove at h
    by_cases hp : p.1 = k
    · rw [if_pos hp] at h
      simp only [List.map_cons, List.mem_cons]
      exact Or.inr h
    · rw [if_neg hp] at h
      simp only [List.map_cons, List.mem_cons] at h ⊢
      rcases h with h | h
      · exact Or.inl h
      · exact Or.inr (ih h)

theorem nodupKeys_mremove {α : Type} (l : List (Nat × α)) (k : Nat)
    (h : nodupKeys l) : nodupKeys (mremove l k) := by
  induction l with
  | nil => exact h
  | cons p rest ih =>
    unfold nodupKeys at *
    simp only [List.map_cons, List.nodup_cons] at h
    unfold mremove
    by_cases hp : p.1 = k
    · rw [if_pos hp]
      exact h.2
    · rw [if_neg hp]
      simp only [List.map_cons, List.nodup_cons]
      exact ⟨fun hm => h.1 (mem_keys_mremove_sub rest k p.1 hm), ih h.2⟩

theorem mlookup_mremove_self {α : Type} (l : List (Nat × α)) (k : Nat)
    (h : nodupKeys l) : mlookup (mremove l k) k = none := by
  induction l with
  | nil => simp [mremove, mlookup]
  | cons p rest ih =>
    unfold nodupKeys at h
    simp only [List.map_cons, List.nodup_cons] at h
    unfold mremove
    by_cases hp : p.1 = k
    · rw [if_pos hp]
      rw [mlookup_eq_none_iff_not_mem_keys]
      rw [← hp]
      exact h.1
    · rw [if_neg hp]
      unfold mlookup
      rw [if_neg hp]
      exact ih h.2

theorem mem_of_mlookup_eq_some {α : Type} (l : List (Nat × α)) (k : Nat) (v : α)
    (h : mlookup l k = some v) : (k, v) ∈ l := by
  induction l with
  | nil => simp [mlookup] at h
  | cons p rest ih =>
    unfold mlookup at h
    by_cases hp : p.1 = k
    · rw [if_pos hp] at h
      cases h
      have hpe : (k, p.2) = p := by rw [← hp]
      rw [hpe]
      exact List.mem_cons_self _ _
    · rw [if_neg hp] at h
      exact List.mem_cons_of_mem _ (ih h)

theorem mlookup_eq_some_of_mem {α : Type} (l : List (Nat × α)) (k : Nat) (v : α)
    (hnd : nodupKeys l) (hm : (k, v) ∈ l) : mlookup l k = some v := by
  induction l with
  | nil => simp at hm
  | cons p rest ih =>
    unfold nodupKeys at hnd
    simp only [List.map_cons, List.nodup_cons] at hnd
    unfold mlookup
    rcases List.mem_cons.mp hm with h | h
    · rw [← h]
      rw [if_pos rfl]
    · have hk : p.1 ≠ k := by
        intro hx
        apply hnd.1
        rw [hx]
        exact List.mem_map.mpr ⟨(k, v), h, rfl⟩
      rw [if_neg hk]
      exact ih hnd.2 h

theorem mem_minsert_iff {α : Type} (l : List (Nat × α)) (k : Nat) (v : α)
    (hnd : nodupKeys l) (p : Nat × α) :
    p ∈ minsert l k v ↔ p = (k, v) ∨ (p ∈ l ∧ p.1 ≠ k) := by
  induction l with
  | nil =>
    simp only [minsert, List.mem_singleton, List.not_mem_nil, false_and, or_false]
  | cons q rest ih =>
    unfold nodupKeys at hnd
    simp only [List.map_cons, List.nodup_cons] at hnd
    rw [minsert_cons]
    by_cases hq : q.1 = k
    · rw [if_pos hq]
      simp only [List.mem_cons]
      constructor
      · rintro (h | h)
        · left; exact h
        · right
          refine ⟨Or.inr h, ?_⟩
          intro hx
          apply hnd.1
          rw [hq, ← hx]
          exact List.mem_map.mpr ⟨p, h, rfl⟩
      · rintro (h | ⟨hm, hne⟩)
        · left; exact h
        · rcases hm with h | h
          · exfalso; apply hne; rw [h]; exact hq
          · right; exact h
    · rw [if_neg hq]
      simp only [List.mem_cons, ih hnd.2]
      constructor
      · rintro (h | h | ⟨hm, hne⟩)
        · right
          refine ⟨Or.inl h, ?_⟩
          rw [h]
          exact hq
        · left; exact h
        · right; exact ⟨Or.inr hm, hne⟩
      · rintro (h | ⟨hm, hne⟩)
        · right; left; exact h
        · rcases hm with h | h
          · left; exact h
          · right; right; exact ⟨h, hne⟩

theorem mem_mremove_iff {α : Type} (l : List (Nat × α)) (k : Nat)
    (hnd : nodupKeys l) (p : Nat × α) :
    p ∈ mremove l k ↔ p ∈ l ∧ p.1 ≠ k := by
  induction l with
  | nil => simp [mremove]
  | cons q rest ih =>
    unfold nodupKeys at hnd
    simp only [List.map_cons, List.nodup_cons] at hnd
    rw [mremove_cons]
    by_cases hq : q.1 = k
    · rw [if_pos hq]
      simp only [List.mem_cons]
      constructor
      · intro h
        refine ⟨Or.inr h, ?_⟩
        intro hx
        apply hnd.1
        rw [hq, ← hx]
        exact List.mem_map.mpr ⟨p, h, rfl⟩
      · rintro ⟨hm, hne⟩
        rcases hm with h | h
        · exfalso; apply hne; rw [h]; exact hq
        · exact h
    · rw [if_neg hq]
      simp only [List.mem_cons, ih hnd.2]
      constructor
      · rintro (h | ⟨hm, hne⟩)
        · refine ⟨Or.inl h, ?_⟩
          rw [h]
          exact hq
        · exact ⟨Or.inr hm, hne⟩
      · rintro ⟨hm, hne⟩
        rcases hm with h | h
        · left; exact h
        · right; exact ⟨h, hne⟩

/-! ## Claim C1 -/

/-- **C1** (code bug): the claim says a deletion whose endpoint belongs to a
cluster `P` detaches the node iff its edges and the remaining members' edges
share no `(predicate, other-id)` pair.  The code instead fetches
`supernodes[P][0]` — the cluster's *first member* — and passes it to
`remove_from_supernode` as the supernode id (with the parent id `P` as the
node), so on a parent-consistent state the member-id lookup in the supernode
map fails and the pass aborts fatally before any intersection test: here
node 1 of cluster 99 = {1, 3} has edge sets disjoint from member 3's, the
claim demands a completed split, yet `handleDeletion` returns `none`. -/
theorem C1_clustered_deletion_aborts_fatally :
    parentConsistent ⟨[(99, [1, 3])],
      [(1, ⟨some 99, [], [(10, 2)]⟩), (2, ⟨none, [(10, 1)], []⟩),
       (3, ⟨some 99, [(20, 4)], []⟩)]⟩ ∧
    metaWF ⟨[(99, [1, 3])],
      [(1, ⟨some 99, [], [(10, 2)]⟩), (2, ⟨none, [(10, 1)], []⟩),
       (3, ⟨some 99, [(20, 4)], []⟩)]⟩ ∧
    handleDeletion ⟨[(99, (0, 0))], [(99, [1, 3])],
      [(1, ⟨some 99, [], [(10, 2)]⟩), (2, ⟨none, [(10, 1)], []⟩),
       (3, ⟨some 99, [(20, 4)], []⟩)]⟩ ⟨1, 10, 2⟩ [] [] = none := by
  exact ⟨by decide, by decide, by decide⟩

/-! ## Claim C3 -/

/-- **C3** (code bug): the claim says `to_single_node` aborts fatally when
the supernode has more than one member.  The source guard is
`!self.supernode_len(snode) == 1` — a *bitwise* complement on `usize` — so
it compares `2^64 - 1 - len` with 1 and never fires for small lists: on
supernode 7 with the two members [1, 2] the call succeeds, clears member 1's
parent, deletes record 7, and leaves member 2 pointing at a ghost parent. -/
theorem C3_to_single_node_accepts_two_members :
    Meta.to_single_node ⟨[(7, [1, 2])], [(1, ⟨some 7, [], []⟩), (2, ⟨some 7, [], []⟩)]⟩ 7 =
      some ⟨[], [(1, ⟨none, [], []⟩), (2, ⟨some 7, [], []⟩)]⟩ := by
  decide

/-! ## Claim C5 -/

/-- **C5** (code bug): the claim says removing triple (1, 10, 2) deletes
exactly the pair (10, 2) from subject 1's outgoing list and keeps (10, 3).
The source retains entries with `x[1] != node && x[0] != pred` — comparing
`x[1]` against the *node's own id* and conjoining instead of disjoining —
so every entry carrying predicate 10 is dropped, including (10, 3). -/
theorem C5_remove_from_node_drops_same_predicate_entries :
    removeFromNode
      [(1, ⟨none, [], [(10, 2), (10, 3)]⟩), (2, ⟨none, [(10, 1)], []⟩),
       (3, ⟨none, [(10, 1)], []⟩)] ⟨1, 10, 2⟩ true =
      some [(1, ⟨none, [], []⟩), (2, ⟨none, [(10, 1)], []⟩),
            (3, ⟨none, [(10, 1)], []⟩)] := by
  decide

/-! ## Claim C7 -/

/-- **C7** (code bug): the claim says registering the *object* endpoint of a
fresh triple places the observed edge in the node's incoming list.  The
source builds `NodeInfo::new(&None, &vec![], &vec![vec![pred, other]])`
regardless of the role, so the edge of object 2 of triple (1, 10, 2) lands
in the outgoing list and the incoming list stays empty. -/
theorem C7_new_node_files_object_edge_as_outgoing :
    Meta.new_node ⟨[], []⟩ ⟨1, 10, 2⟩ false =
      some ⟨[], [(2, ⟨none, [], [(10, 1)]⟩)]⟩ := by
  decide

/-! ## Claim C8 -/

/-- **C8** (code bug): the claim says only fingerprint predicates no longer
carried by any remaining edge are removed from a singleton clique.  The
retain loop of `remove_preds_in_clique` removes every fingerprint value that
equals one of the first `preds.len()` entries of the *flattened* outgoing
vector — i.e. precisely the predicates (and endpoint ids) still carried:
deleting (1, 10, 9) leaves node 1 with edge (11, 5), yet predicate 11 is
removed from its singleton clique's fingerprint, which ends empty. -/
theorem C8_remove_preds_drops_still_justified_predicate :
    handleDeletion
      ⟨[(1, (0, 0)), (9, (0, 0))], [],
       [(1, ⟨none, [], [(11, 5)]⟩), (9, ⟨none, [], []⟩)]⟩
      ⟨1, 10, 9⟩ [⟨[1], [11]⟩] [] =
      some (⟨[(1, (0, 0)), (9, (0, 0))], [],
             [(1, ⟨none, [], [(11, 5)]⟩), (9, ⟨none, [], []⟩)]⟩,
            [⟨[1], []⟩], []) := by
  decide

/-! ## Claim C2: counterexample -/

/-- **C2** fails as stated: `new_node`'s documented precondition (the id
does not *exist*, i.e. keys neither map) and parent consistency of the
state do not rule out the fresh id occurring inside some member list while
owning no node record.  Registering id 3 on such a state yields a parentless
node listed by supernode 5, violating parent consistency. -/
theorem C2_counterexample_new_node_ghost_member :
    parentConsistent ⟨[(5, [3])], []⟩ ∧
    newNodePre ⟨[(5, [3])], []⟩ ⟨3, 10, 4⟩ true ∧
    Meta.new_node ⟨[(5, [3])], []⟩ ⟨3, 10, 4⟩ true =
      some ⟨[(5, [3])], [(3, ⟨none, [], [(10, 4)]⟩)]⟩ ∧
    ¬ parentConsistent ⟨[(5, [3])], [(3, ⟨none, [], [(10, 4)]⟩)]⟩ := by
  exact ⟨by decide, by decide, by decide, by decide⟩

/-! ## Claim C6: counterexample -/

/-- **C6** fails as stated: with `old = [5, 5]` every entry of `old` names
the existing supernode 5 (whose members 1, 2 are registered plain nodes),
yet `new_snode` panics — the second pass over id 5 falls into the
plain-node branch after the record was deleted and unwraps a missing node —
instead of producing the state the claim describes. -/
theorem C6_counterexample_duplicate_supernode_id :
    metaWF ⟨[(5, [1, 2])], [(1, ⟨some 5, [], []⟩), (2, ⟨some 5, [], []⟩)]⟩ ∧
    (∀ n ∈ [5, 5], (mlookup (⟨[(5, [1, 2])],
      [(1, ⟨some 5, [], []⟩), (2, ⟨some 5, [], []⟩)]⟩ : Meta).supernodes n).isSome = true) ∧
    Meta.new_snode ⟨[(5, [1, 2])], [(1, ⟨some 5, [], []⟩), (2, ⟨some 5, [], []⟩)]⟩ [5, 5] 9 =
      none := by
  exact ⟨by decide, by decide, by decide⟩

/-! ## Claim C10 -/

/-- **C10** (confirmed): `remove_from_supernode` never deletes a supernode
record — after detaching `node`, its former parent `P` is still a key of the
supernode map (bound to the old member list with `node` filtered out, even
when that leaves it empty), every other supernode entry and every other
node record is unchanged, and `node`'s record only has its parent cleared.
Separately, `handle_singleton_supernodes` — the deletion algorithm's only
gateway to `to_single_node` — leaves the state untouched whenever the
member count differs from one, so zero-member clusters persist. -/
theorem C10_remove_from_supernode_frame :
    (∀ (m : Meta) (node : Nat) (info : NodeInfo) (P : Nat) (mems : List Nat),
      mlookup m.nodes node = some info → info.parent = some P →
      mlookup m.supernodes P = some mems →
      ∃ m', Meta.remove_from_supernode m node = some m' ∧
        mlookup m'.supernodes P = some (mems.filter (fun x => x ≠ node)) ∧
        (∀ q, q ≠ P → mlookup m'.supernodes q = mlookup m.supernodes q) ∧
        (∀ k, k ≠ node → mlookup m'.nodes k = mlookup m.nodes k) ∧
        mlookup m'.nodes node = some { info with parent := none }) ∧
    (∀ (stuff : Stuff) (sc tc : List Clique) (snode : Nat) (idx : Nat × Nat)
        (mems : List Nat),
      mlookup stuff.index_map snode = some idx →
      mlookup stuff.supernodes snode = some mems → mems.length ≠ 1 →
      handleSingletonSupernodes stuff sc tc snode = some (stuff, sc, tc)) := by
  constructor
  · intro m node info P mems hn hp hs
    have hres : Meta.remove_from_supernode m node =
        some ⟨minsert m.supernodes P (mems.filter (fun x => x ≠ node)),
              minsert m.nodes node { info with parent := none }⟩ := by
      unfold Meta.remove_from_supernode
      simp only [hn, hp, hs]
    refine ⟨_, hres, ?_, ?_, ?_, ?_⟩
    · exact mlookup_minsert_self m.supernodes P _
    · intro q hq
      exact mlookup_minsert_ne m.supernodes P q _ hq
    · intro k hk
      exact mlookup_minsert_ne m.nodes node k _ hk
    · exact mlookup_minsert_self m.nodes node _
  · intro stuff sc tc snode idx mems hi hs hlen
    unfold handleSingletonSupernodes
    simp only [hi, hs]
    rw [if_neg hlen]

/-- Witness for C10: detaching node 1 from its singleton parent 5 keeps key
5 bound to the now-empty list, and a two-member supernode is not collapsed
by `handle_singleton_supernodes`. -/
theorem C10_witness :
    (∃ m', Meta.remove_from_supernode ⟨[(5, [1])], [(1, ⟨some 5, [], []⟩)]⟩ 1 = some m' ∧
      mlookup m'.supernodes 5 = some (([1] : List Nat).filter (fun x => x ≠ 1)) ∧
      (∀ q, q ≠ 5 → mlookup m'.supernodes q =
        mlookup (⟨[(5, [1])], [(1, ⟨some 5, [], []⟩)]⟩ : Meta).supernodes q) ∧
      (∀ k, k ≠ 1 → mlookup m'.nodes k =
        mlookup (⟨[(5, [1])], [(1, ⟨some 5, [], []⟩)]⟩ : Meta).nodes k) ∧
      mlookup m'.nodes 1 = some ⟨none, [], []⟩) ∧
    handleSingletonSupernodes ⟨[(7, (0, 0))], [(7, [1, 2])], []⟩ [] [] 7 =
      some (⟨[(7, (0, 0))], [(7, [1, 2])], []⟩, [], []) := by
  exact ⟨C10_remove_from_supernode_frame.1 _ 1 ⟨some 5, [], []⟩ 5 [1] rfl rfl rfl,
    C10_remove_from_supernode_frame.2 _ [] [] 7 (0, 0) [1, 2] rfl rfl (by decide)⟩

/-! ## Claim C9 -/

theorem foldl_minsert_lookup_not_mem {α : Type} (es : List (Nat × α)) :
    ∀ (acc : List (Nat × α)) (k : Nat), k ∉ es.map Prod.fst →
      mlookup (es.foldl (fun a e => minsert a e.1 e.2) acc) k = mlookup acc k := by
  induction es with
  | nil => intro acc k _; rfl
  | cons e rest ih =>
    intro acc k h
    simp only [List.map_cons, List.mem_cons] at h
    push_neg at h
    rw [List.foldl_cons, ih _ k h.2, mlookup_minsert_ne _ _ _ _ h.1]

theorem foldl_minsert_lookup_mem {α : Type} (es : List (Nat × α)) :
    ∀ (acc : List (Nat × α)) (k : Nat), nodupKeys es → k ∈ es.map Prod.fst →
      mlookup (es.foldl (fun a e => minsert a e.1 e.2) acc) k = mlookup es k := by
  induction es with
  | nil => intro acc k _ h; simp at h
  | cons e rest ih =>
    intro acc k hnd h
    unfold nodupKeys at hnd
    simp only [List.map_cons, List.nodup_cons] at hnd
    rw [List.foldl_cons]
    by_cases hk : k = e.1
    · subst hk
      rw [foldl_minsert_lookup_not_mem rest _ e.1 hnd.1, mlookup_minsert_self,
        mlookup_cons, if_pos rfl]
    · simp only [List.map_cons, List.mem_cons] at h
      rcases h with h | h
      · exact absurd h hk
      · rw [ih _ k hnd.2 h, mlookup_cons, if_neg (fun hh => hk hh.symm)]

theorem mlookup_perm {α : Type} (l l' : List (Nat × α)) (h : l.Perm l')
    (hnd : nodupKeys l) (k : Nat) : mlookup l k = mlookup l' k := by
  have hnd' : nodupKeys l' := ((h.map Prod.fst).nodup_iff).mp hnd
  cases hv : mlookup l k with
  | some v =>
    exact (mlookup_eq_some_of_mem l' k v hnd'
      ((h.mem_iff).mp (mem_of_mlookup_eq_some l k v hv))).symm
  | none =>
    symm
    rw [mlookup_eq_none_iff_not_mem_keys] at hv ⊢
    intro hm
    exact hv (((h.map Prod.fst).mem_iff).mpr hm)

/-- **C9** (confirmed): deserialising any reordering of `serialize m` — in
particular `serialize m` itself — rebuilds maps with exactly `m`'s keys and,
per key, the identical member list or node record (parent, incoming and
outgoing lists in order); the order of the flat record sequences is
immaterial. -/
theorem C9_serialize_deserialize_roundtrip (m : Meta) (file : MetaFile)
    (h1 : nodupKeys m.nodes) (h2 : nodupKeys m.supernodes)
    (hs : file.s.Perm (Meta.serialize m).s) (hq : file.q.Perm (Meta.serialize m).q) :
    ∀ k, mlookup (Meta.deserialize file).nodes k = mlookup m.nodes k ∧
         mlookup (Meta.deserialize file).supernodes k = mlookup m.supernodes k := by
  have hqe : (Meta.serialize m).q.map
      (fun nd => (nd.i, (⟨nd.p, nd.n, nd.o⟩ : NodeInfo))) = m.nodes := by
    show (m.nodes.map
        (fun kv => (⟨kv.1, kv.2.parent, kv.2.incoming, kv.2.outgoing⟩ : SnapNode))).map
      (fun nd => (nd.i, (⟨nd.p, nd.n, nd.o⟩ : NodeInfo))) = m.nodes
    rw [List.map_map]
    exact List.map_id m.nodes
  have hse : (Meta.serialize m).s.map (fun sn => (sn.i, sn.g)) = m.supernodes := by
    show (m.supernodes.map (fun kv => (⟨kv.1, kv.2⟩ : Supernode))).map
      (fun sn => (sn.i, sn.g)) = m.supernodes
    rw [List.map_map]
    exact List.map_id m.supernodes
  have hpq : (file.q.map (fun nd => (nd.i, (⟨nd.p, nd.n, nd.o⟩ : NodeInfo)))).Perm m.nodes := by
    rw [← hqe]
    exact hq.map _
  have hps : (file.s.map (fun sn => (sn.i, sn.g))).Perm m.supernodes := by
    rw [← hse]
    exact hs.map _
  have hndq : nodupKeys (file.q.map (fun nd => (nd.i, (⟨nd.p, nd.n, nd.o⟩ : NodeInfo)))) :=
    ((hpq.map Prod.fst).nodup_iff).mpr h1
  have hnds : nodupKeys (file.s.map (fun sn => (sn.i, sn.g))) :=
    ((hps.map Prod.fst).nodup_iff).mpr h2
  have hfoldq : (Meta.deserialize file).nodes =
      (file.q.map (fun nd => (nd.i, (⟨nd.p, nd.n, nd.o⟩ : NodeInfo)))).foldl
        (fun a e => minsert a e.1 e.2) [] := by
    rw [List.foldl_map]
    rfl
  have hfolds : (Meta.deserialize file).supernodes =
      (file.s.map (fun sn => (sn.i, sn.g))).foldl (fun a e => minsert a e.1 e.2) [] := by
    rw [List.foldl_map]
    rfl
  intro k
  constructor
  · by_cases hk : k ∈ (file.q.map (fun nd => (nd.i, (⟨nd.p, nd.n, nd.o⟩ : NodeInfo)))).map Prod.fst
    · rw [hfoldq, foldl_minsert_lookup_mem _ [] k hndq hk]
      exact mlookup_perm _ m.nodes hpq hndq k
    · rw [hfoldq, foldl_minsert_lookup_not_mem _ [] k hk, mlookup_nil]
      symm
      rw [mlookup_eq_none_iff_not_mem_keys]
      intro hm
      exact hk (((hpq.map Prod.fst).mem_iff).mpr hm)
  · by_cases hk : k ∈ (file.s.map (fun sn => (sn.i, sn.g))).map Prod.fst
    · rw [hfolds, foldl_minsert_lookup_mem _ [] k hnds hk]
      exact mlookup_perm _ m.supernodes hps hnds k
    · rw [hfolds, foldl_minsert_lookup_not_mem _ [] k hk, mlookup_nil]
      symm
      rw [mlookup_eq_none_iff_not_mem_keys]
      intro hm
      exact hk (((hps.map Prod.fst).mem_iff).mpr hm)

/-- Witness for C9 on a model with one two-member supernode and two node
records; the snapshot is consumed as produced. -/
theorem C9_witness :
    mlookup (Meta.deserialize (Meta.serialize
      ⟨[(5, [1, 2])], [(1, ⟨some 5, [(10, 3)], []⟩), (2, ⟨some 5, [], [(11, 4)]⟩)]⟩)).nodes 1 =
      mlookup ([(1, ⟨some 5, [(10, 3)], []⟩), (2, ⟨some 5, [], [(11, 4)]⟩)] :
        List (Nat × NodeInfo)) 1 ∧
    mlookup (Meta.deserialize (Meta.serialize
      ⟨[(5, [1, 2])], [(1, ⟨some 5, [(10, 3)], []⟩), (2, ⟨some 5, [], [(11, 4)]⟩)]⟩)).supernodes 1 =
      mlookup ([(5, [1, 2])] : List (Nat × List Nat)) 1 :=
  C9_serialize_deserialize_roundtrip
    ⟨[(5, [1, 2])], [(1, ⟨some 5, [(10, 3)], []⟩), (2, ⟨some 5, [], [(11, 4)]⟩)]⟩
    (Meta.serialize ⟨[(5, [1, 2])], [(1, ⟨some 5, [(10, 3)], []⟩), (2, ⟨some 5, [], [(11, 4)]⟩)]⟩)
    (by decide) (by decide) (List.Perm.refl _) (List.Perm.refl _) 1

/-! ## Claim C4 -/

/-- Any endpoint that still belongs to a cluster aborts the pass: the first
`remove_from_supernode` call clears the parent id's own `parent` field, so
the subsequent `handle_split` unwrap of that field always fails (when the
earlier member-id lookup did not already fail). -/
theorem handleClusteredEndpoint_eq_none (stuff : Stuff) (sc tc : List Clique) (p : Nat) :
    handleClusteredEndpoint stuff sc tc p = none := by
  unfold handleClusteredEndpoint
  cases hm : mlookup stuff.supernodes p with
  | none => rfl
  | some mems =>
    simp only []
    cases hh : mems.head? with
    | none => rfl
    | some sid =>
      simp only []
      cases hr : removeFromSupernodeF stuff sid p with
      | none => rfl
      | some stuff1 =>
        simp only []
        have hsplit : handleSplit stuff1 p = none := by
          unfold removeFromSupernodeF at hr
          cases h1 : mlookup stuff.supernodes sid with
          | none =>
            rw [h1] at hr
            exact Option.noConfusion hr
          | some mems' =>
            rw [h1] at hr
            simp only [] at hr
            cases h2 : mlookup stuff.nodes p with
            | none =>
              rw [h2] at hr
              exact Option.noConfusion hr
            | some info =>
              rw [h2] at hr
              simp only [Option.some.injEq] at hr
              subst hr
              unfold handleSplit
              simp only [mlookup_minsert_self]
        rw [hsplit]

/-- A completed `handle_deletion` leaves the supernode map untouched: the
clustered path always aborts, and the plain paths only rewrite node records
and cliques. -/
theorem handleDeletion_supernodes_eq (stuff : Stuff) (t : Triple) (sc tc : List Clique)
    (r : Stuff × List Clique × List Clique) (h : handleDeletion stuff t sc tc = some r) :
    r.1.supernodes = stuff.supernodes := by
  unfold handleDeletion at h
  cases hsub : mlookup stuff.nodes t.sub with
  | none => rw [hsub] at h; exact Option.noConfusion h
  | some subInfo =>
  cases hobj : mlookup stuff.nodes t.obj with
  | none => rw [hsub, hobj] at h; exact Option.noConfusion h
  | some objInfo =>
  rw [hsub, hobj] at h
  simp only [] at h
  cases hps : subInfo.parent with
  | some p_sub =>
    rw [hps] at h
    simp only [handleClusteredEndpoint_eq_none] at h
    exact Option.noConfusion h
  | none =>
    rw [hps] at h
    simp only [] at h
    cases hrm : removeFromNode stuff.nodes t true with
    | none => rw [hrm] at h; exact Option.noConfusion h
    | some nodes1 =>
    rw [hrm] at h
    simp only [] at h
    cases hrp : removePredsInClique { stuff with nodes := nodes1 } subInfo t sc true with
    | none => rw [hrp] at h; exact Option.noConfusion h
    | some sc1 =>
    rw [hrp] at h
    simp only [] at h
    cases hpo : objInfo.parent with
    | some p_obj =>
      rw [hpo] at h
      simp only [handleClusteredEndpoint_eq_none] at h
      exact Option.noConfusion h
    | none =>
      rw [hpo] at h
      simp only [] at h
      cases hrm2 : removeFromNode nodes1 t false with
      | none => rw [hrm2] at h; exact Option.noConfusion h
      | some nodes2 =>
      rw [hrm2] at h
      simp only [Option.some.injEq] at h
      subst h
      rfl

/-- **C4** (confirmed; the absent `updater/funcs.rs` helpers are modelled
from the spec): when `delete_triple` finishes a batch without a fatal
abort, no supernode of the resulting model has a member list of length
exactly one, provided none had one when the pass began — on the code as
written, a completed pass can only have taken the plain-node path for every
endpoint, which never touches the supernode map. -/
theorem C4_delete_triple_no_singletons (deletions : List Triple) :
    ∀ (sc tc : List Clique) (stuff : Stuff) (r : Stuff × List Clique × List Clique),
      deleteTriple deletions sc tc stuff = some r →
      noSingletons stuff.supernodes → noSingletons r.1.supernodes := by
  induction deletions with
  | nil =>
    intro sc tc stuff r h h0
    unfold deleteTriple at h
    simp only [Option.some.injEq] at h
    subst h
    exact h0
  | cons t rest ih =>
    intro sc tc stuff r h h0
    unfold deleteTriple at h
    cases hh : handleDeletion stuff t sc tc with
    | none => rw [hh] at h; exact Option.noConfusion h
    | some r1 =>
      rw [hh] at h
      simp only at h
      have hsn := handleDeletion_supernodes_eq stuff t sc tc r1 hh
      refine ih _ _ _ _ h ?_
      rw [hsn]
      exact h0

/-- Witness for C4: a one-triple batch between two plain nodes completes
(the clique fingerprint of subject 1 is pruned on the way) and the empty
supernode map stays singleton-free. -/
theorem C4_witness :
    deleteTriple [⟨1, 10, 9⟩] [⟨[1], [11]⟩] []
      ⟨[(1, (0, 0)), (9, (0, 0))], [], [(1, ⟨none, [], [(11, 5)]⟩), (9, ⟨none, [], []⟩)]⟩ =
      some (⟨[(1, (0, 0)), (9, (0, 0))], [],
             [(1, ⟨none, [], [(11, 5)]⟩), (9, ⟨none, [], []⟩)]⟩,
            [⟨[1], []⟩], []) ∧
    noSingletons (⟨[(1, (0, 0)), (9, (0, 0))], [],
      [(1, ⟨none, [], [(11, 5)]⟩), (9, ⟨none, [], []⟩)]⟩ : Stuff).supernodes :=
  ⟨by decide,
    C4_delete_triple_no_singletons [⟨1, 10, 9⟩] [⟨[1], [11]⟩] []
      ⟨[(1, (0, 0)), (9, (0, 0))], [], [(1, ⟨none, [], [(11, 5)]⟩), (9, ⟨none, [], []⟩)]⟩
      (⟨[(1, (0, 0)), (9, (0, 0))], [],
        [(1, ⟨none, [], [(11, 5)]⟩), (9, ⟨none, [], []⟩)]⟩, [⟨[1], []⟩], [])
      (by decide) (by decide)⟩

/-! ## Claim C6: amended theorem -/

theorem setParents_spec (mems : List Nat) :
    ∀ (nodes : List (Nat × NodeInfo)) (new : Nat),
    (∀ x ∈ mems, (mlookup nodes x).isSome = true) →
    ∃ nodes', setParents nodes mems new = some nodes' ∧
      (∀ k, k ∉ mems → mlookup nodes' k = mlookup nodes k) ∧
      (∀ k ∈ mems, ∃ info, mlookup nodes k = some info ∧
        mlookup nodes' k = some { info with parent := some new }) ∧
      nodes'.map Prod.fst = nodes.map Prod.fst := by
  induction mems with
  | nil =>
    intro nodes new _
    exact ⟨nodes, rfl, fun k _ => rfl, fun k hk => absurd hk (List.not_mem_nil k), rfl⟩
  | cons s rest ih =>
    intro nodes new hreg
    obtain ⟨info, hinfo⟩ : ∃ info, mlookup nodes s = some info := by
      have hs := hreg s (List.mem_cons_self s rest)
      cases h : mlookup nodes s with
      | none => rw [h] at hs; exact absurd hs (by simp)
      | some info => exact ⟨info, rfl⟩
    have hreg1 : ∀ x ∈ rest, (mlookup (minsert nodes s { info with parent := some new }) x).isSome = true := by
      intro x hx
      by_cases hxs : x = s
      · subst hxs
        rw [mlookup_minsert_self]
        rfl
      · rw [mlookup_minsert_ne _ _ _ _ hxs]
        exact hreg x (List.mem_cons_of_mem _ hx)
    obtain ⟨nodes', hrun, hout, hin, hkeys⟩ :=
      ih (minsert nodes s { info with parent := some new }) new hreg1
    refine ⟨nodes', ?_, ?_, ?_, ?_⟩
    · unfold setParents
      rw [hinfo]
      exact hrun
    · intro k hk
      have hk1 : k ≠ s := fun hh => hk (hh ▸ List.mem_cons_self s rest)
      have hk2 : k ∉ rest := fun hh => hk (List.mem_cons_of_mem _ hh)
      rw [hout k hk2, mlookup_minsert_ne _ _ _ _ hk1]
    · intro k hk
      by_cases hkr : k ∈ rest
      · obtain ⟨info1, h1, h2⟩ := hin k hkr
        by_cases hks : k = s
        · subst hks
          rw [mlookup_minsert_self] at h1
          have : info1 = { info with parent := some new } := by
            injection h1.symm
          subst this
          exact ⟨info, hinfo, h2⟩
        · rw [mlookup_minsert_ne _ _ _ _ hks] at h1
          exact ⟨info1, h1, h2⟩
      · have hks : k = s := by
          rcases List.mem_cons.mp hk with h | h
          · exact h
          · exact absurd h hkr
        subst hks
        refine ⟨info, hinfo, ?_⟩
        rw [hout k hkr, mlookup_minsert_self]
    · rw [hkeys]
      exact keys_minsert_of_mem nodes s _
        ((mlookup_isSome_iff_mem_keys nodes s).mp (by rw [hinfo]; rfl))

theorem expandMems_cons (m : Meta) (n : Nat) (rest : List Nat) :
    expandMems m (n :: rest) =
      (match mlookup m.supernodes n with
       | some mems => mems
       | none => [n]) ++ expandMems m rest := by
  unfold expandMems
  rw [List.map_cons, List.flatten_cons]

theorem expandMems_congr (m m' : Meta) (old : List Nat)
    (h : ∀ n ∈ old, mlookup m'.supernodes n = mlookup m.supernodes n) :
    expandMems m' old = expandMems m old := by
  unfold expandMems
  congr 1
  induction old with
  | nil => rfl
  | cons n rest ih =>
    rw [List.map_cons, List.map_cons, h n (List.mem_cons_self n rest),
      ih (fun u hu => h u (List.mem_cons_of_mem _ hu))]

theorem newSnodeLoop_spec (old : List Nat) :
    ∀ (m : Meta) (new : Nat) (acc : List Nat),
    nodupKeys m.supernodes →
    (∀ q ∈ m.supernodes, ∀ x ∈ q.2, (mlookup m.nodes x).isSome = true) →
    (∀ n ∈ old, mlookup m.supernodes n = none → (mlookup m.nodes n).isSome = true) →
    (old.filter (fun n => (mlookup m.supernodes n).isSome)).Nodup →
    ∃ m' : Meta,
      newSnodeLoop m old new acc = some (m', acc ++ expandMems m old) ∧
      (∀ k, mlookup m'.supernodes k =
        if k ∈ old ∧ (mlookup m.supernodes k).isSome = true then none
        else mlookup m.supernodes k) ∧
      (∀ k ∈ expandMems m old, ∃ info, mlookup m.nodes k = some info ∧
        mlookup m'.nodes k = some { info with parent := some new }) ∧
      (∀ k, k ∉ expandMems m old → mlookup m'.nodes k = mlookup m.nodes k) ∧
      m'.nodes.map Prod.fst = m.nodes.map Prod.fst ∧
      nodupKeys m'.supernodes := by
  induction old with
  | nil =>
    intro m new acc hnds _ _ _
    refine ⟨m, ?_, ?_, ?_, ?_, rfl, hnds⟩
    · show some (m, acc) = some (m, acc ++ expandMems m [])
      rw [show expandMems m [] = [] from rfl, List.append_nil]
    · intro k
      rw [if_neg]
      rintro ⟨hk, _⟩
      exact List.not_mem_nil k hk
    · intro k hk
      exact absurd hk (List.not_mem_nil k)
    · intro k _
      rfl
  | cons n rest ih =>
    intro m new acc hnds hreg hpre hsnd
    cases hsn : mlookup m.supernodes n with
    | some sn =>
      have hpredn : (mlookup m.supernodes n).isSome = true := by rw [hsn]; rfl
      have hfil : List.filter (fun u => (mlookup m.supernodes u).isSome) (n :: rest) =
          n :: List.filter (fun u => (mlookup m.supernodes u).isSome) rest := by
        simp [List.filter_cons, hpredn]
      rw [hfil] at hsnd
      have hnotrest : n ∉ rest.filter (fun u => (mlookup m.supernodes u).isSome) :=
        (List.nodup_cons.mp hsnd).1
      have hsnd' : (rest.filter (fun u => (mlookup m.supernodes u).isSome)).Nodup :=
        (List.nodup_cons.mp hsnd).2
      have hnrest : ∀ u ∈ rest, u ≠ n := by
        intro u hu hun
        subst hun
        exact hnotrest (List.mem_filter.mpr ⟨hu, hpredn⟩)
      have hmemq : (n, sn) ∈ m.supernodes := mem_of_mlookup_eq_some _ _ _ hsn
      have hregsn : ∀ x ∈ sn, (mlookup m.nodes x).isSome = true :=
        fun x hx => hreg (n, sn) hmemq x hx
      obtain ⟨nodes1, hrun1, hout1, hin1, hkeys1⟩ := setParents_spec sn m.nodes new hregsn
      have hlook1 : ∀ u, u ≠ n →
          mlookup (mremove m.supernodes n) u = mlookup m.supernodes u :=
        fun u hu => mlookup_mremove_ne _ _ _ hu
      have hlookn : mlookup (mremove m.supernodes n) n = none :=
        mlookup_mremove_self _ _ hnds
      have hisome1 : ∀ k, (mlookup nodes1 k).isSome = true ↔
          (mlookup m.nodes k).isSome = true := by
        intro k
        rw [mlookup_isSome_iff_mem_keys, mlookup_isSome_iff_mem_keys, hkeys1]
      have hnds1 : nodupKeys (mremove m.supernodes n) := nodupKeys_mremove _ _ hnds
      have hreg1 : ∀ q ∈ mremove m.supernodes n, ∀ x ∈ q.2,
          (mlookup nodes1 x).isSome = true := by
        intro q hq x hx
        have hq' : q ∈ m.supernodes := ((mem_mremove_iff m.supernodes n hnds q).mp hq).1
        exact (hisome1 x).mpr (hreg q hq' x hx)
      have hpre1 : ∀ u ∈ rest, mlookup (mremove m.supernodes n) u = none →
          (mlookup nodes1 u).isSome = true := by
        intro u hu h0
        rw [hlook1 u (hnrest u hu)] at h0
        exact (hisome1 u).mpr (hpre u (List.mem_cons_of_mem _ hu) h0)
      have hsnd1 : (rest.filter
          (fun u => (mlookup (mremove m.supernodes n) u).isSome)).Nodup := by
        refine List.Sublist.nodup ?_ hsnd'
        apply List.monotone_filter_right
        intro a ha
        by_cases han : a = n
        · subst han
          rw [hlookn] at ha
          exact absurd ha (by simp)
        · rw [hlook1 a han] at ha
          exact ha
      obtain ⟨m2, hrun2, hsup2, hin2, hout2, hkeys2, hnds2⟩ :=
        ih ⟨mremove m.supernodes n, nodes1⟩ new (acc ++ sn) hnds1 hreg1 hpre1 hsnd1
      have hexp : expandMems ⟨mremove m.supernodes n, nodes1⟩ rest = expandMems m rest := by
        apply expandMems_congr
        intro u hu
        exact hlook1 u (hnrest u hu)
      refine ⟨m2, ?_, ?_, ?_, ?_, ?_, hnds2⟩
      · unfold newSnodeLoop
        rw [hsn]
        simp only []
        rw [hrun1]
        simp only []
        rw [hrun2, hexp, expandMems_cons, hsn, List.append_assoc]
      · intro k
        by_cases hk : k = n
        · subst hk
          rw [if_pos ⟨List.mem_cons_self k rest, hpredn⟩, hsup2 k]
          rw [if_neg, hlookn]
          rintro ⟨_, hk2⟩
          rw [show (⟨mremove m.supernodes k, nodes1⟩ : Meta).supernodes =
            mremove m.supernodes k from rfl, hlookn] at hk2
          exact absurd hk2 (by simp)
        · rw [hsup2 k]
          by_cases hcond : k ∈ rest ∧
              (mlookup (⟨mremove m.supernodes n, nodes1⟩ : Meta).supernodes k).isSome = true
          · rw [if_pos hcond,
              if_pos ⟨List.mem_cons_of_mem n hcond.1, by rw [← hlook1 k hk]; exact hcond.2⟩]
          · rw [if_neg hcond, if_neg]
            · exact hlook1 k hk
            · rintro ⟨hk1, hk2⟩
              apply hcond
              refine ⟨?_, ?_⟩
              · rcases List.mem_cons.mp hk1 with h | h
                · exact absurd h hk
                · exact h
              · rw [show (⟨mremove m.supernodes n, nodes1⟩ : Meta).supernodes =
                  mremove m.supernodes n from rfl, hlook1 k hk]
                exact hk2
      · intro k hk
        rw [expandMems_cons, hsn] at hk
        rcases List.mem_append.mp hk with hks | hkr
        · by_cases hkr2 : k ∈ expandMems ⟨mremove m.supernodes n, nodes1⟩ rest
          · obtain ⟨info1, h1, h2⟩ := hin2 k hkr2
            obtain ⟨info0, h0, h1'⟩ := hin1 k hks
            rw [h1'] at h1
            injection h1 with h1e
            subst h1e
            exact ⟨info0, h0, h2⟩
          · obtain ⟨info0, h0, h1'⟩ := hin1 k hks
            refine ⟨info0, h0, ?_⟩
            rw [hout2 k hkr2]
            exact h1'
        · rw [← hexp] at hkr
          obtain ⟨info1, h1, h2⟩ := hin2 k hkr
          by_cases hks : k ∈ sn
          · obtain ⟨info0, h0, h1'⟩ := hin1 k hks
            rw [h1'] at h1
            injection h1 with h1e
            subst h1e
            exact ⟨info0, h0, h2⟩
          · rw [hout1 k hks] at h1
            exact ⟨info1, h1, h2⟩
      · intro k hk
        have hks : k ∉ sn := by
          intro hh
          apply hk
          rw [expandMems_cons, hsn]
          exact List.mem_append.mpr (Or.inl hh)
        have hkr : k ∉ expandMems ⟨mremove m.supernodes n, nodes1⟩ rest := by
          intro hh
          apply hk
          rw [expandMems_cons, hsn]
          rw [hexp] at hh
          exact List.mem_append.mpr (Or.inr hh)
        rw [hout2 k hkr]
        exact hout1 k hks
      · rw [hkeys2]
        exact hkeys1
    | none =>
      have hpredn : (mlookup m.supernodes n).isSome = false := by rw [hsn]; rfl
      have hfil : List.filter (fun u => (mlookup m.supernodes u).isSome) (n :: rest) =
          List.filter (fun u => (mlookup m.supernodes u).isSome) rest := by
        simp [List.filter_cons, hpredn]
      rw [hfil] at hsnd
      obtain ⟨info, hinfo⟩ : ∃ info, mlookup m.nodes n = some info := by
        have hn := hpre n (List.mem_cons_self n rest) hsn
        cases h : mlookup m.nodes n with
        | none => rw [h] at hn; exact absurd hn (by simp)
        | some i => exact ⟨i, rfl⟩
      have hisome1 : ∀ k,
          (mlookup (minsert m.nodes n { info with parent := some new }) k).isSome = true ↔
          (mlookup m.nodes k).isSome = true := by
        intro k
        by_cases hkn : k = n
        · subst hkn
          rw [mlookup_minsert_self, hinfo]
          exact ⟨fun _ => rfl, fun _ => rfl⟩
        · rw [mlookup_minsert_ne _ _ _ _ hkn]
      have hreg1 : ∀ q ∈ m.supernodes, ∀ x ∈ q.2,
          (mlookup (minsert m.nodes n { info with parent := some new }) x).isSome = true :=
        fun q hq x hx => (hisome1 x).mpr (hreg q hq x hx)
      have hpre1 : ∀ u ∈ rest, mlookup m.supernodes u = none →
          (mlookup (minsert m.nodes n { info with parent := some new }) u).isSome = true :=
        fun u hu h0 => (hisome1 u).mpr (hpre u (List.mem_cons_of_mem _ hu) h0)
      obtain ⟨m2, hrun2, hsup2, hin2, hout2, hkeys2, hnds2⟩ :=
        ih { m with nodes := minsert m.nodes n { info with parent := some new } }
          new (acc ++ [n]) hnds hreg1 hpre1 hsnd
      have hexp : expandMems
          { m with nodes := minsert m.nodes n { info with parent := some new } } rest =
          expandMems m rest :=
        expandMems_congr _ _ _ (fun u _ => rfl)
      refine ⟨m2, ?_, ?_, ?_, ?_, ?_, hnds2⟩
      · unfold newSnodeLoop
        rw [hsn]
        simp only []
        rw [hinfo]
        simp only []
        rw [hrun2, hexp, expandMems_cons, hsn, List.append_assoc]
      · intro k
        rw [hsup2 k]
        by_cases hcond : k ∈ rest ∧ (mlookup m.supernodes k).isSome = true
        · rw [if_pos hcond, if_pos ⟨List.mem_cons_of_mem n hcond.1, hcond.2⟩]
        · rw [if_neg hcond, if_neg]
          rintro ⟨hk1, hk2⟩
          apply hcond
          refine ⟨?_, hk2⟩
          rcases List.mem_cons.mp hk1 with h | h
          · subst h
            rw [hpredn] at hk2
            exact absurd hk2 Bool.false_ne_true
          · exact h
      · intro k hk
        rw [expandMems_cons, hsn] at hk
        rcases List.mem_append.mp hk with hks | hkr
        · have hkn : k = n := List.mem_singleton.mp hks
          subst hkn
          by_cases hkr2 : k ∈ expandMems
              { m with nodes := minsert m.nodes k { info with parent := some new } } rest
          · obtain ⟨info1, h1, h2⟩ := hin2 k hkr2
            rw [show ({ m with nodes := minsert m.nodes k { info with parent := some new } } :
              Meta).nodes = minsert m.nodes k { info with parent := some new } from rfl,
              mlookup_minsert_self] at h1
            injection h1 with h1e
            subst h1e
            exact ⟨info, hinfo, h2⟩
          · refine ⟨info, hinfo, ?_⟩
            rw [hout2 k hkr2]
            exact mlookup_minsert_self _ _ _
        · rw [← hexp] at hkr
          obtain ⟨info1, h1, h2⟩ := hin2 k hkr
          by_cases hkn : k = n
          · subst hkn
            rw [show ({ m with nodes := minsert m.nodes k { info with parent := some new } } :
              Meta).nodes = minsert m.nodes k { info with parent := some new } from rfl,
              mlookup_minsert_self] at h1
            injection h1 with h1e
            subst h1e
            exact ⟨info, hinfo, h2⟩
          · rw [show ({ m with nodes := minsert m.nodes n { info with parent := some new } } :
              Meta).nodes = minsert m.nodes n { info with parent := some new } from rfl,
              mlookup_minsert_ne _ _ _ _ hkn] at h1
            exact ⟨info1, h1, h2⟩
      · intro k hk
        have hkn : k ≠ n := by
          intro hh
          apply hk
          rw [expandMems_cons, hsn]
          exact List.mem_append.mpr (Or.inl (hh ▸ List.mem_singleton_self k))
        have hkr : k ∉ expandMems
            { m with nodes := minsert m.nodes n { info with parent := some new } } rest := by
          intro hh
          apply hk
          rw [expandMems_cons, hsn]
          rw [hexp] at hh
          exact List.mem_append.mpr (Or.inr hh)
        rw [hout2 k hkr]
        exact mlookup_minsert_ne _ _ _ _ hkn
      · rw [hkeys2]
        exact keys_minsert_of_mem m.nodes n _
          ((mlookup_isSome_iff_mem_keys m.nodes n).mp (by rw [hinfo]; rfl))

/-- **C6** (corrected; see `C6_counterexample_duplicate_supernode_id`): with
the single amendment that no id naming a supernode occurs twice in `old`,
`new_snode` behaves as claimed — for a fresh `new` and every id of `old`
naming a plain parentless node or an existing supernode (with registered
members, per well-formedness), it installs under `new` the order-preserving
concatenation of, per id, the former member list or the id itself; every
collected id's parent becomes `Some(new)`; and every absorbed supernode id
is no longer a key of the supernode map. -/
theorem C6_new_snode_amended (m : Meta) (old : List Nat) (new : Nat)
    (hWF : metaWF m)
    (hfresh : m.contains new = false)
    (hpre : ∀ n ∈ old,
      (mlookup m.supernodes n = none ∧
        ∃ info, mlookup m.nodes n = some info ∧ info.parent = none) ∨
      (mlookup m.supernodes n).isSome = true)
    (hsnd : (old.filter (fun n => (mlookup m.supernodes n).isSome)).Nodup) :
    ∃ m', Meta.new_snode m old new = some m' ∧
      mlookup m'.supernodes new = some (expandMems m old) ∧
      (∀ k ∈ expandMems m old, ∃ info, mlookup m.nodes k = some info ∧
        mlookup m'.nodes k = some { info with parent := some new }) ∧
      (∀ n ∈ old, (mlookup m.supernodes n).isSome = true →
        mlookup m'.supernodes n = none) := by
  obtain ⟨hndN, hndS, hmw⟩ := hWF
  have hreg : ∀ q ∈ m.supernodes, ∀ x ∈ q.2, (mlookup m.nodes x).isSome = true :=
    fun q hq x hx => (hmw q hq).2 x hx
  have hpre' : ∀ n ∈ old, mlookup m.supernodes n = none →
      (mlookup m.nodes n).isSome = true := by
    intro n hn h0
    rcases hpre n hn with ⟨_, info, hi, _⟩ | hs
    · rw [hi]; rfl
    · rw [h0] at hs; exact absurd hs (by simp)
  obtain ⟨mL, hrun, hsup, hin, hout, hkeys, hndS'⟩ :=
    newSnodeLoop_spec old m new [] hndS hreg hpre' hsnd
  have hfreshS : mlookup m.supernodes new = none := by
    unfold Meta.contains at hfresh
    cases h : mlookup m.supernodes new with
    | none => rfl
    | some v => rw [h] at hfresh; simp at hfresh
  refine ⟨{ mL with supernodes := minsert mL.supernodes new (expandMems m old) },
    ?_, ?_, ?_, ?_⟩
  · unfold Meta.new_snode
    rw [hrun]
    rfl
  · exact mlookup_minsert_self _ _ _
  · intro k hk
    exact hin k hk
  · intro n hn hs
    have hne : n ≠ new := by
      intro hh
      rw [hh, hfreshS] at hs
      exact absurd hs (by simp)
    rw [show ({ mL with supernodes := minsert mL.supernodes new (expandMems m old) } :
        Meta).supernodes = minsert mL.supernodes new (expandMems m old) from rfl,
      mlookup_minsert_ne _ _ _ _ hne, hsup n, if_pos ⟨hn, hs⟩]

/-- Witness for the amended C6: merging supernode 5 = {1, 2} with plain
node 3 into fresh supernode 9. -/
theorem C6_witness :
    ∃ m', Meta.new_snode ⟨[(5, [1, 2])],
        [(1, ⟨some 5, [], []⟩), (2, ⟨some 5, [], []⟩), (3, ⟨none, [], [(10, 1)]⟩)]⟩
        [5, 3] 9 = some m' ∧
      mlookup m'.supernodes 9 = some (expandMems ⟨[(5, [1, 2])],
        [(1, ⟨some 5, [], []⟩), (2, ⟨some 5, [], []⟩), (3, ⟨none, [], [(10, 1)]⟩)]⟩ [5, 3]) ∧
      (∀ k ∈ expandMems ⟨[(5, [1, 2])],
          [(1, ⟨some 5, [], []⟩), (2, ⟨some 5, [], []⟩), (3, ⟨none, [], [(10, 1)]⟩)]⟩ [5, 3],
        ∃ info, mlookup (⟨[(5, [1, 2])],
          [(1, ⟨some 5, [], []⟩), (2, ⟨some 5, [], []⟩), (3, ⟨none, [], [(10, 1)]⟩)]⟩ :
            Meta).nodes k = some info ∧
          mlookup m'.nodes k = some { info with parent := some 9 }) ∧
      (∀ n ∈ [5, 3], (mlookup (⟨[(5, [1, 2])],
          [(1, ⟨some 5, [], []⟩), (2, ⟨some 5, [], []⟩), (3, ⟨none, [], [(10, 1)]⟩)]⟩ :
            Meta).supernodes n).isSome = true → mlookup m'.supernodes n = none) :=
  C6_new_snode_amended
    ⟨[(5, [1, 2])], [(1, ⟨some 5, [], []⟩), (2, ⟨some 5, [], []⟩), (3, ⟨none, [], [(10, 1)]⟩)]⟩
    [5, 3] 9 (by decide) (by decide)
    (by
      intro n hn
      rcases List.mem_cons.mp hn with h | h
      · subst h
        right
        rfl
      · rcases List.mem_cons.mp h with h2 | h2
        · subst h2
          left
          exact ⟨rfl, ⟨⟨none, [], [(10, 1)]⟩, rfl, rfl⟩⟩
        · exact absurd h2 (List.not_mem_nil n))
    (by decide)

/-! ## Claim C2: amended theorem -/

theorem pcEntry_congr_parent (sns : List (Nat × List Nat)) (a : Nat) (i1 i2 : NodeInfo)
    (hpar : i2.parent = i1.parent) (h : pcEntry sns a i1) : pcEntry sns a i2 := by
  unfold pcEntry at *
  rw [hpar]
  exact h

/-- Replacing an existing node record by one with the same parent preserves
the invariant bundle. -/
theorem minsert_same_parent_preserves (m : Meta) (k : Nat) (info info' : NodeInfo)
    (hpar : info'.parent = info.parent)
    (hWF : metaWF m) (hpc : parentConsistent m) (hl : mlookup m.nodes k = some info) :
    parentConsistent ⟨m.supernodes, minsert m.nodes k info'⟩ ∧
    metaWF ⟨m.supernodes, minsert m.nodes k info'⟩ := by
  obtain ⟨hndN, hndS, hmw⟩ := hWF
  have hkeys : (minsert m.nodes k info').map Prod.fst = m.nodes.map Prod.fst :=
    keys_minsert_of_mem m.nodes k info'
      ((mlookup_isSome_iff_mem_keys m.nodes k).mp (by rw [hl]; rfl))
  refine ⟨?_, nodupKeys_minsert _ _ _ hndN, hndS, ?_⟩
  · intro p hp
    rcases (mem_minsert_iff m.nodes k info' hndN p).mp hp with hpe | ⟨hpm, _⟩
    · subst hpe
      exact pcEntry_congr_parent m.supernodes k info info' hpar
        (hpc (k, info) (mem_of_mlookup_eq_some _ _ _ hl))
    · exact hpc p hpm
  · intro q hq
    refine ⟨(hmw q hq).1, ?_⟩
    intro x hx
    rw [mlookup_isSome_iff_mem_keys, hkeys, ← mlookup_isSome_iff_mem_keys]
    exact (hmw q hq).2 x hx

theorem newNode_preserves (m : Meta) (t : Triple) (b : Bool) (m' : Meta)
    (hWF : metaWF m) (hpc : parentConsistent m)
    (h : Meta.new_node m t b = some m') : parentConsistent m' ∧ metaWF m' := by
  obtain ⟨hndN, hndS, hmw⟩ := hWF
  unfold Meta.new_node at h
  simp only [] at h
  cases hc : Meta.contains m (if b then t.sub else t.obj) with
  | true => rw [hc] at h; simp at h
  | false =>
    rw [hc] at h
    simp only [Bool.false_eq_true, if_false, Option.some.injEq] at h
    subst h
    have h1 : mlookup m.nodes (if b then t.sub else t.obj) = none := by
      cases hx : mlookup m.nodes (if b then t.sub else t.obj) with
      | none => rfl
      | some v => unfold Meta.contains at hc; rw [hx] at hc; simp at hc
    have hnot : ∀ q ∈ m.supernodes, (if b then t.sub else t.obj) ∉ q.2 := by
      intro q hq hmem
      have hx := (hmw q hq).2 _ hmem
      rw [h1] at hx
      exact absurd hx (by simp)
    constructor
    · intro p hp
      rcases (mem_minsert_iff m.nodes _ _ hndN p).mp hp with hpe | ⟨hpm, _⟩
      · subst hpe
        refine ⟨?_, ?_, ?_, ?_⟩
        · intro hs
          exact absurd hs (by simp)
        · intro q hq hp2
          exact absurd hp2 (by simp)
        · intro q hq hc1
          exfalso
          exact hnot q hq (List.count_pos_iff.mp (by rw [hc1]; exact Nat.one_pos))
        · intro _ q hq
          exact hnot q hq
      · exact hpc p hpm
    · refine ⟨nodupKeys_minsert _ _ _ hndN, hndS, ?_⟩
      intro q hq
      refine ⟨(hmw q hq).1, ?_⟩
      intro x hx
      by_cases hxk : x = (if b then t.sub else t.obj)
      · subst hxk
        rw [mlookup_minsert_self]
        rfl
      · rw [mlookup_minsert_ne _ _ _ _ hxk]
        exact (hmw q hq).2 x hx

theorem addOutgoing_preserves (m : Meta) (t : Triple) (m' : Meta)
    (hWF : metaWF m) (hpc : parentConsistent m)
    (h : Meta.add_outgoing m t = some m') : parentConsistent m' ∧ metaWF m' := by
  unfold Meta.add_outgoing at h
  cases hl : mlookup m.nodes t.sub with
  | none => rw [hl] at h; exact Option.noConfusion h
  | some info =>
    rw [hl] at h
    simp only [Option.some.injEq] at h
    subst h
    exact minsert_same_parent_preserves m t.sub info _ rfl hWF hpc hl

theorem addIncoming_preserves (m : Meta) (t : Triple) (m' : Meta)
    (hWF : metaWF m) (hpc : parentConsistent m)
    (h : Meta.add_incoming m t = some m') : parentConsistent m' ∧ metaWF m' := by
  unfold Meta.add_incoming at h
  cases hl : mlookup m.nodes t.obj with
  | none => rw [hl] at h; exact Option.noConfusion h
  | some info =>
    rw [hl] at h
    simp only [Option.some.injEq] at h
    subst h
    exact minsert_same_parent_preserves m t.obj info _ rfl hWF hpc hl

theorem count_filter_ne (l : List Nat) (a b : Nat) (h : a ≠ b) :
    (l.filter (fun x => x ≠ b)).count a = l.count a := by
  induction l with
  | nil => rfl
  | cons c rest ih =>
    by_cases hcb : c = b
    · simp [List.filter_cons, List.count_cons, hcb, ih, Ne.symm h, h]
    · simp [List.filter_cons, List.count_cons, hcb]
      simpa using ih

theorem removeFromSupernode_preserves (m : Meta) (node : Nat) (m' : Meta)
    (hWF : metaWF m) (hpc : parentConsistent m)
    (h : Meta.remove_from_supernode m node = some m') :
    parentConsistent m' ∧ metaWF m' := by
  obtain ⟨hndN, hndS, hmw⟩ := hWF
  unfold Meta.remove_from_supernode at h
  cases hl : mlookup m.nodes node with
  | none => rw [hl] at h; exact Option.noConfusion h
  | some info =>
  rw [hl] at h
  simp only [] at h
  cases hp : info.parent with
  | none => rw [hp] at h; exact Option.noConfusion h
  | some P =>
  rw [hp] at h
  simp only [] at h
  cases hs : mlookup m.supernodes P with
  | none => rw [hs] at h; exact Option.noConfusion h
  | some mems =>
  rw [hs] at h
  simp only [Option.some.injEq] at h
  subst h
  have hkn := hpc (node, info) (mem_of_mlookup_eq_some _ _ _ hl)
  have hPmem : (P, mems) ∈ m.supernodes := mem_of_mlookup_eq_some _ _ _ hs
  have hnotin : node ∉ mems.filter (fun x => x ≠ node) := by simp
  constructor
  · intro p hpmem
    rcases (mem_minsert_iff m.nodes node _ hndN p).mp hpmem with hpe | ⟨hpm, hpk⟩
    · subst hpe
      refine ⟨?_, ?_, ?_, ?_⟩
      · intro hx
        exact absurd hx (by simp)
      · intro q hq hp2
        exact absurd hp2 (by simp)
      · intro q hq hc1
        exfalso
        rcases (mem_minsert_iff m.supernodes P _ hndS q).mp hq with hqe | ⟨hqm, hqk⟩
        · subst hqe
          simp only [] at hc1
          rw [List.count_eq_zero.mpr hnotin] at hc1
          exact absurd hc1 (by simp)
        · have h3 := hkn.2.2.1 q hqm hc1
          rw [hp] at h3
          injection h3 with he
          exact hqk he.symm
      · intro _ q hq hmem
        rcases (mem_minsert_iff m.supernodes P _ hndS q).mp hq with hqe | ⟨hqm, hqk⟩
        · subst hqe
          exact hnotin hmem
        · have hcnt : q.2.count node = 1 := List.count_eq_one_of_mem (hmw q hqm).1 hmem
          have h3 := hkn.2.2.1 q hqm hcnt
          rw [hp] at h3
          injection h3 with he
          exact hqk he.symm
    · have hold := hpc p hpm
      refine ⟨?_, ?_, ?_, ?_⟩
      · intro hx
        obtain ⟨q, hq, hpq⟩ := hold.1 hx
        by_cases hqP : q.1 = P
        · refine ⟨(P, mems.filter (fun x => x ≠ node)),
            (mem_minsert_iff m.supernodes P _ hndS _).mpr (Or.inl rfl), ?_⟩
          rw [hpq, hqP]
        · exact ⟨q, (mem_minsert_iff m.supernodes P _ hndS q).mpr (Or.inr ⟨hq, hqP⟩), hpq⟩
      · intro q hq hp2
        rcases (mem_minsert_iff m.supernodes P _ hndS q).mp hq with hqe | ⟨hqm, hqk⟩
        · subst hqe
          have h1 : mems.count p.1 = 1 := hold.2.1 (P, mems) hPmem hp2
          simp only []
          rw [count_filter_ne mems p.1 node hpk]
          exact h1
        · exact hold.2.1 q hqm hp2
      · intro q hq hc1
        rcases (mem_minsert_iff m.supernodes P _ hndS q).mp hq with hqe | ⟨hqm, hqk⟩
        · subst hqe
          simp only [] at hc1
          rw [count_filter_ne mems p.1 node hpk] at hc1
          exact hold.2.2.1 (P, mems) hPmem hc1
        · exact hold.2.2.1 q hqm hc1
      · intro hnone q hq
        rcases (mem_minsert_iff m.supernodes P _ hndS q).mp hq with hqe | ⟨hqm, hqk⟩
        · subst hqe
          intro hmem
          exact hold.2.2.2 hnone (P, mems) hPmem (List.mem_of_mem_filter hmem)
        · exact hold.2.2.2 hnone q hqm
  · refine ⟨nodupKeys_minsert _ _ _ hndN, nodupKeys_minsert _ _ _ hndS, ?_⟩
    intro q hq
    rcases (mem_minsert_iff m.supernodes P _ hndS q).mp hq with hqe | ⟨hqm, hqk⟩
    · subst hqe
      refine ⟨List.Nodup.filter _ (hmw (P, mems) hPmem).1, ?_⟩
      intro x hx
      have hxm : x ∈ mems := List.mem_of_mem_filter hx
      by_cases hxn : x = node
      · subst hxn
        rw [mlookup_minsert_self]
        rfl
      · rw [mlookup_minsert_ne _ _ _ _ hxn]
        exact (hmw (P, mems) hPmem).2 x hxm
    · refine ⟨(hmw q hqm).1, ?_⟩
      intro x hx
      by_cases hxn : x = node
      · subst hxn
        rw [mlookup_minsert_self]
        rfl
      · rw [mlookup_minsert_ne _ _ _ _ hxn]
        exact (hmw q hqm).2 x hx

theorem toSingleNode_preserves (m : Meta) (snode : Nat) (m' : Meta)
    (hWF : metaWF m) (hpc : parentConsistent m)
    (hPre : toSingleNodePre m snode)
    (h : Meta.to_single_node m snode = some m') :
    parentConsistent m' ∧ metaWF m' := by
  obtain ⟨hndN, hndS, hmw⟩ := hWF
  obtain ⟨mems0, hs0, hlen⟩ := hPre
  obtain ⟨node0, hmems⟩ := List.length_eq_one.mp hlen
  subst hmems
  unfold Meta.to_single_node at h
  rw [hs0] at h
  simp only [] at h
  have hguard : ¬ (USIZE - 1 - ([node0] : List Nat).length % USIZE = 1) := by
    simp only [List.length_singleton]
    decide
  rw [if_neg hguard] at h
  simp only [List.head?] at h
  have hsnodeMem : (snode, [node0]) ∈ m.supernodes := mem_of_mlookup_eq_some _ _ _ hs0
  have hreg0 : (mlookup m.nodes node0).isSome = true :=
    (hmw (snode, [node0]) hsnodeMem).2 node0 (by simp)
  cases hl : mlookup m.nodes node0 with
  | none => rw [hl] at hreg0; exact absurd hreg0 (by simp)
  | some info0 =>
  rw [hl] at h
  simp only [Option.some.injEq] at h
  subst h
  have hkn := hpc (node0, info0) (mem_of_mlookup_eq_some _ _ _ hl)
  have hpar0 : info0.parent = some snode :=
    hkn.2.2.1 (snode, [node0]) hsnodeMem (by simp)
  constructor
  · intro p hpmem
    rcases (mem_minsert_iff m.nodes node0 _ hndN p).mp hpmem with hpe | ⟨hpm, hpk⟩
    · subst hpe
      refine ⟨?_, ?_, ?_, ?_⟩
      · intro hx
        exact absurd hx (by simp)
      · intro q hq hp2
        exact absurd hp2 (by simp)
      · intro q hq hc1
        exfalso
        obtain ⟨hqm, hqk⟩ := (mem_mremove_iff m.supernodes snode hndS q).mp hq
        have h3 := hkn.2.2.1 q hqm hc1
        rw [hpar0] at h3
        injection h3 with he
        exact hqk he.symm
      · intro _ q hq hmem
        obtain ⟨hqm, hqk⟩ := (mem_mremove_iff m.supernodes snode hndS q).mp hq
        have hcnt : q.2.count node0 = 1 := List.count_eq_one_of_mem (hmw q hqm).1 hmem
        have h3 := hkn.2.2.1 q hqm hcnt
        rw [hpar0] at h3
        injection h3 with he
        exact hqk he.symm
    · have hold := hpc p hpm
      refine ⟨?_, ?_, ?_, ?_⟩
      · intro hx
        obtain ⟨q, hq, hpq⟩ := hold.1 hx
        have hqs : q.1 ≠ snode := by
          intro hh
          have hlq : mlookup m.supernodes q.1 = some q.2 :=
            mlookup_eq_some_of_mem _ _ _ hndS hq
          rw [hh, hs0] at hlq
          injection hlq with hq2
          have hcnt : q.2.count p.1 = 1 := hold.2.1 q hq hpq
          rw [← hq2] at hcnt
          have hpmem1 : p.1 ∈ [node0] :=
            List.count_pos_iff.mp (by rw [hcnt]; exact Nat.one_pos)
          exact hpk (List.mem_singleton.mp hpmem1)
        exact ⟨q, (mem_mremove_iff m.supernodes snode hndS q).mpr ⟨hq, hqs⟩, hpq⟩
      · intro q hq hp2
        exact hold.2.1 q ((mem_mremove_iff m.supernodes snode hndS q).mp hq).1 hp2
      · intro q hq hc1
        exact hold.2.2.1 q ((mem_mremove_iff m.supernodes snode hndS q).mp hq).1 hc1
      · intro hnone q hq
        exact hold.2.2.2 hnone q ((mem_mremove_iff m.supernodes snode hndS q).mp hq).1
  · refine ⟨nodupKeys_minsert _ _ _ hndN, nodupKeys_mremove _ _ hndS, ?_⟩
    intro q hq
    obtain ⟨hqm, _⟩ := (mem_mremove_iff m.supernodes snode hndS q).mp hq
    refine ⟨(hmw q hqm).1, ?_⟩
    intro x hx
    by_cases hxn : x = node0
    · subst hxn
      rw [mlookup_minsert_self]
      rfl
    · rw [mlookup_minsert_ne _ _ _ _ hxn]
      exact (hmw q hqm).2 x hx

theorem newSnode_preserves (m : Meta) (old : List Nat) (new : Nat) (m' : Meta)
    (hWF : metaWF m) (hpc : parentConsistent m)
    (hPre : newSnodePre m old new)
    (h : Meta.new_snode m old new = some m') :
    parentConsistent m' ∧ metaWF m' := by
  obtain ⟨hndN, hndS, hmw⟩ := hWF
  obtain ⟨hfresh, hpre, hexpNodup, hsnd⟩ := hPre
  have hreg : ∀ q ∈ m.supernodes, ∀ x ∈ q.2, (mlookup m.nodes x).isSome = true :=
    fun q hq x hx => (hmw q hq).2 x hx
  have hpre' : ∀ n ∈ old, mlookup m.supernodes n = none →
      (mlookup m.nodes n).isSome = true := by
    intro n hn h0
    rcases hpre n hn with ⟨_, info, hi, _⟩ | hs
    · rw [hi]; rfl
    · rw [h0] at hs; exact absurd hs (by simp)
  obtain ⟨mL, hrun, hsup, hin, hout, hkeys, hndS'⟩ :=
    newSnodeLoop_spec old m new [] hndS hreg hpre' hsnd
  have hfreshS : mlookup m.supernodes new = none := by
    unfold Meta.contains at hfresh
    cases hx : mlookup m.supernodes new with
    | none => rfl
    | some v => rw [hx] at hfresh; simp at hfresh
  have hm' : m' = { mL with supernodes := minsert mL.supernodes new (expandMems m old) } := by
    unfold Meta.new_snode at h
    rw [hrun] at h
    simp only [Option.map_some', Option.some.injEq] at h
    exact h.symm
  subst hm'
  have hexp_mem : ∀ k, k ∈ expandMems m old ↔
      ∃ n ∈ old, k ∈ (match mlookup m.supernodes n with
        | some mems => mems
        | none => [n]) := by
    intro k
    unfold expandMems
    rw [List.mem_flatten]
    constructor
    · rintro ⟨l, hl, hkl⟩
      obtain ⟨n, hn, hfn⟩ := List.mem_map.mp hl
      exact ⟨n, hn, hfn ▸ hkl⟩
    · rintro ⟨n, hn, hkn⟩
      exact ⟨_, List.mem_map.mpr ⟨n, hn, rfl⟩, hkn⟩
  have hndL : nodupKeys mL.nodes := by
    unfold nodupKeys at *
    rw [hkeys]
    exact hndN
  have hsurv : ∀ q : Nat × List Nat, q ∈ mL.supernodes →
      q ∈ m.supernodes ∧ ¬ (q.1 ∈ old ∧ (mlookup m.supernodes q.1).isSome = true) := by
    intro q hq
    have hlq : mlookup mL.supernodes q.1 = some q.2 := mlookup_eq_some_of_mem _ _ _ hndS' hq
    rw [hsup q.1] at hlq
    by_cases hproc : q.1 ∈ old ∧ (mlookup m.supernodes q.1).isSome = true
    · rw [if_pos hproc] at hlq
      exact Option.noConfusion hlq
    · rw [if_neg hproc] at hlq
      exact ⟨mem_of_mlookup_eq_some _ _ _ hlq, hproc⟩
  have hproc_mem : ∀ n ∈ old, ∀ mems, mlookup m.supernodes n = some mems →
      ∀ x ∈ mems, x ∈ expandMems m old := by
    intro n hn mems hl x hx
    refine (hexp_mem x).mpr ⟨n, hn, ?_⟩
    rw [hl]
    exact hx
  have hnosurv : ∀ k ∈ expandMems m old, ∀ q ∈ mL.supernodes, k ∉ q.2 := by
    intro k hk q hq hmemq
    obtain ⟨hqm, hqproc⟩ := hsurv q hq
    obtain ⟨n, hn, hkn⟩ := (hexp_mem k).mp hk
    cases hsn : mlookup m.supernodes n with
    | none =>
      rw [hsn] at hkn
      have hkeq : k = n := List.mem_singleton.mp hkn
      subst hkeq
      rcases hpre k hn with ⟨_, info, hi, hpar⟩ | hs
      · have hkentry := hpc (k, info) (mem_of_mlookup_eq_some _ _ _ hi)
        exact hkentry.2.2.2 hpar q hqm hmemq
      · rw [hsn] at hs
        exact absurd hs (by simp)
    | some memsn =>
      rw [hsn] at hkn
      have hnmem : (n, memsn) ∈ m.supernodes := mem_of_mlookup_eq_some _ _ _ hsn
      have hkreg := (hmw (n, memsn) hnmem).2 k hkn
      cases hki : mlookup m.nodes k with
      | none => rw [hki] at hkreg; exact absurd hkreg (by simp)
      | some infok =>
        have hkentry := hpc (k, infok) (mem_of_mlookup_eq_some _ _ _ hki)
        have hc1 : memsn.count k = 1 := List.count_eq_one_of_mem (hmw (n, memsn) hnmem).1 hkn
        have hp1 : infok.parent = some n := hkentry.2.2.1 (n, memsn) hnmem hc1
        have hc2 : q.2.count k = 1 := List.count_eq_one_of_mem (hmw q hqm).1 hmemq
        have hp2 : infok.parent = some q.1 := hkentry.2.2.1 q hqm hc2
        rw [hp1] at hp2
        injection hp2 with he
        apply hqproc
        refine ⟨?_, ?_⟩
        · rw [← he]; exact hn
        · rw [← he, hsn]; rfl
  constructor
  · intro p hp
    have hp' : p ∈ mL.nodes := hp
    have hlp : mlookup mL.nodes p.1 = some p.2 := mlookup_eq_some_of_mem _ _ _ hndL hp'
    by_cases hcol : p.1 ∈ expandMems m old
    · obtain ⟨info, h0, h1⟩ := hin p.1 hcol
      rw [hlp] at h1
      injection h1 with h1e
      have hpar : p.2.parent = some new := by rw [h1e]
      refine ⟨?_, ?_, ?_, ?_⟩
      · intro _
        exact ⟨(new, expandMems m old),
          (mem_minsert_iff mL.supernodes new _ hndS' _).mpr (Or.inl rfl), by rw [hpar]⟩
      · intro q hq hp2
        rcases (mem_minsert_iff mL.supernodes new _ hndS' q).mp hq with hqe | ⟨hqm, hqk⟩
        · subst hqe
          exact List.count_eq_one_of_mem hexpNodup hcol
        · exfalso
          rw [hpar] at hp2
          injection hp2 with he
          exact hqk he.symm
      · intro q hq hc1
        rcases (mem_minsert_iff mL.supernodes new _ hndS' q).mp hq with hqe | ⟨hqm, hqk⟩
        · subst hqe
          rw [hpar]
        · exfalso
          have hpm : p.1 ∈ q.2 := List.count_pos_iff.mp (by rw [hc1]; exact Nat.one_pos)
          exact hnosurv p.1 hcol q hqm hpm
      · intro hnone
        rw [hnone] at hpar
        exact Option.noConfusion hpar
    · have hlp0 : mlookup m.nodes p.1 = some p.2 := by
        rw [← hout p.1 hcol]
        exact hlp
      have hold := hpc (p.1, p.2) (mem_of_mlookup_eq_some _ _ _ hlp0)
      refine ⟨?_, ?_, ?_, ?_⟩
      · intro hx
        obtain ⟨q, hq, hpq⟩ := hold.1 hx
        have hqs : mlookup m.supernodes q.1 = some q.2 := mlookup_eq_some_of_mem _ _ _ hndS hq
        have hnproc : ¬ (q.1 ∈ old ∧ (mlookup m.supernodes q.1).isSome = true) := by
          rintro ⟨hq1, _⟩
          have hc : q.2.count p.1 = 1 := hold.2.1 q hq hpq
          have hpm : p.1 ∈ q.2 := List.count_pos_iff.mp (by rw [hc]; exact Nat.one_pos)
          exact hcol (hproc_mem q.1 hq1 q.2 hqs p.1 hpm)
        have hqL : mlookup mL.supernodes q.1 = some q.2 := by
          rw [hsup q.1, if_neg hnproc]
          exact hqs
        have hqnew : q.1 ≠ new := by
          intro hh
          rw [hh, hfreshS] at hqs
          exact Option.noConfusion hqs
        exact ⟨q, (mem_minsert_iff mL.supernodes new _ hndS' q).mpr
          (Or.inr ⟨mem_of_mlookup_eq_some _ _ _ hqL, hqnew⟩), hpq⟩
      · intro q hq hp2
        rcases (mem_minsert_iff mL.supernodes new _ hndS' q).mp hq with hqe | ⟨hqm, hqk⟩
        · subst hqe
          exfalso
          have hx : p.2.parent.isSome = true := by rw [hp2]; rfl
          obtain ⟨q0, hq0, hpq0⟩ := hold.1 hx
          rw [hpq0] at hp2
          injection hp2 with he
          have hq0s : mlookup m.supernodes q0.1 = some q0.2 :=
            mlookup_eq_some_of_mem _ _ _ hndS hq0
          rw [he, hfreshS] at hq0s
          exact Option.noConfusion hq0s
        · exact hold.2.1 q ((hsurv q hqm).1) hp2
      · intro q hq hc1
        rcases (mem_minsert_iff mL.supernodes new _ hndS' q).mp hq with hqe | ⟨hqm, hqk⟩
        · subst hqe
          exfalso
          exact hcol (List.count_pos_iff.mp (by rw [hc1]; exact Nat.one_pos))
        · exact hold.2.2.1 q ((hsurv q hqm).1) hc1
      · intro hnone q hq
        rcases (mem_minsert_iff mL.supernodes new _ hndS' q).mp hq with hqe | ⟨hqm, hqk⟩
        · subst hqe
          exact hcol
        · exact hold.2.2.2 hnone q ((hsurv q hqm).1)
  · refine ⟨hndL, nodupKeys_minsert _ _ _ hndS', ?_⟩
    intro q hq
    rcases (mem_minsert_iff mL.supernodes new _ hndS' q).mp hq with hqe | ⟨hqm, hqk⟩
    · subst hqe
      refine ⟨hexpNodup, ?_⟩
      intro x hx
      obtain ⟨info, h0, h1⟩ := hin x hx
      rw [h1]
      rfl
    · obtain ⟨hqm0, _⟩ := hsurv q hqm
      refine ⟨(hmw q hqm0).1, ?_⟩
      intro x hx
      rw [mlookup_isSome_iff_mem_keys, hkeys, ← mlookup_isSome_iff_mem_keys]
      exact (hmw q hqm0).2 x hx

/-- **C2** (corrected; see `C2_counterexample_new_node_ghost_member`): with
the amendment that the state also satisfies membership well-formedness
(`metaWF`: duplicate-free keys, duplicate-free member lists naming only
registered nodes) — parent consistency alone is not inductive — every
graph-model mutation (`new_node`, `add_outgoing`, `add_incoming`,
`remove_from_supernode`, `to_single_node`, `new_snode`), invoked with its
documented precondition on a parent-consistent state, yields a
parent-consistent and well-formed state. -/
theorem C2_mutations_preserve_parent_consistency :
    (∀ (m : Meta) (t : Triple) (b : Bool) (m' : Meta), metaWF m → parentConsistent m →
      newNodePre m t b → Meta.new_node m t b = some m' →
      parentConsistent m' ∧ metaWF m') ∧
    (∀ (m : Meta) (t : Triple) (m' : Meta), metaWF m → parentConsistent m →
      addOutgoingPre m t → Meta.add_outgoing m t = some m' →
      parentConsistent m' ∧ metaWF m') ∧
    (∀ (m : Meta) (t : Triple) (m' : Meta), metaWF m → parentConsistent m →
      addIncomingPre m t → Meta.add_incoming m t = some m' →
      parentConsistent m' ∧ metaWF m') ∧
    (∀ (m : Meta) (node : Nat) (m' : Meta), metaWF m → parentConsistent m →
      removeFromSupernodePre m node → Meta.remove_from_supernode m node = some m' →
      parentConsistent m' ∧ metaWF m') ∧
    (∀ (m : Meta) (snode : Nat) (m' : Meta), metaWF m → parentConsistent m →
      toSingleNodePre m snode → Meta.to_single_node m snode = some m' →
      parentConsistent m' ∧ metaWF m') ∧
    (∀ (m : Meta) (old : List Nat) (new : Nat) (m' : Meta), metaWF m → parentConsistent m →
      newSnodePre m old new → Meta.new_snode m old new = some m' →
      parentConsistent m' ∧ metaWF m') :=
  ⟨fun m t b m' hWF hpc _ h => newNode_preserves m t b m' hWF hpc h,
   fun m t m' hWF hpc _ h => addOutgoing_preserves m t m' hWF hpc h,
   fun m t m' hWF hpc _ h => addIncoming_preserves m t m' hWF hpc h,
   fun m node m' hWF hpc _ h => removeFromSupernode_preserves m node m' hWF hpc h,
   fun m snode m' hWF hpc hPre h => toSingleNode_preserves m snode m' hWF hpc hPre h,
   fun m old new m' hWF hpc hPre h => newSnode_preserves m old new m' hWF hpc hPre h⟩

/-- Witness for the amended C2: all six mutations run on concrete
well-formed parent-consistent states with their preconditions holding. -/
theorem C2_witness :
    (parentConsistent ⟨[], [(1, ⟨none, [], [(10, 2)]⟩)]⟩ ∧
      metaWF ⟨[], [(1, ⟨none, [], [(10, 2)]⟩)]⟩) ∧
    (parentConsistent ⟨[], [(1, ⟨none, [], [(10, 2)]⟩)]⟩ ∧
      metaWF ⟨[], [(1, ⟨none, [], [(10, 2)]⟩)]⟩) ∧
    (parentConsistent ⟨[], [(2, ⟨none, [(10, 1)], []⟩)]⟩ ∧
      metaWF ⟨[], [(2, ⟨none, [(10, 1)], []⟩)]⟩) ∧
    (parentConsistent ⟨[(5, [2])], [(1, ⟨none, [], []⟩), (2, ⟨some 5, [], []⟩)]⟩ ∧
      metaWF ⟨[(5, [2])], [(1, ⟨none, [], []⟩), (2, ⟨some 5, [], []⟩)]⟩) ∧
    (parentConsistent ⟨[], [(1, ⟨none, [], []⟩)]⟩ ∧
      metaWF ⟨[], [(1, ⟨none, [], []⟩)]⟩) ∧
    (parentConsistent ⟨[(9, [1, 2, 3])],
        [(1, ⟨some 9, [], []⟩), (2, ⟨some 9, [], []⟩), (3, ⟨some 9, [], [(10, 1)]⟩)]⟩ ∧
      metaWF ⟨[(9, [1, 2, 3])],
        [(1, ⟨some 9, [], []⟩), (2, ⟨some 9, [], []⟩), (3, ⟨some 9, [], [(10, 1)]⟩)]⟩) :=
  ⟨C2_mutations_preserve_parent_consistency.1 ⟨[], []⟩ ⟨1, 10, 2⟩ true
      ⟨[], [(1, ⟨none, [], [(10, 2)]⟩)]⟩ (by decide) (by decide) (by decide) (by decide),
   C2_mutations_preserve_parent_consistency.2.1 ⟨[], [(1, ⟨none, [], []⟩)]⟩ ⟨1, 10, 2⟩
      ⟨[], [(1, ⟨none, [], [(10, 2)]⟩)]⟩ (by decide) (by decide) rfl (by decide),
   C2_mutations_preserve_parent_consistency.2.2.1 ⟨[], [(2, ⟨none, [], []⟩)]⟩ ⟨1, 10, 2⟩
      ⟨[], [(2, ⟨none, [(10, 1)], []⟩)]⟩ (by decide) (by decide) rfl (by decide),
   C2_mutations_preserve_parent_consistency.2.2.2.1
      ⟨[(5, [1, 2])], [(1, ⟨some 5, [], []⟩), (2, ⟨some 5, [], []⟩)]⟩ 1
      ⟨[(5, [2])], [(1, ⟨none, [], []⟩), (2, ⟨some 5, [], []⟩)]⟩
      (by decide) (by decide) ⟨⟨some 5, [], []⟩, rfl, rfl⟩ (by decide),
   C2_mutations_preserve_parent_consistency.2.2.2.2.1
      ⟨[(5, [1])], [(1, ⟨some 5, [], []⟩)]⟩ 5 ⟨[], [(1, ⟨none, [], []⟩)]⟩
      (by decide) (by decide) ⟨[1], rfl, rfl⟩ (by decide),
   C2_mutations_preserve_parent_consistency.2.2.2.2.2
      ⟨[(5, [1, 2])], [(1, ⟨some 5, [], []⟩), (2, ⟨some 5, [], []⟩), (3, ⟨none, [], [(10, 1)]⟩)]⟩
      [5, 3] 9
      ⟨[(9, [1, 2, 3])],
        [(1, ⟨some 9, [], []⟩), (2, ⟨some 9, [], []⟩), (3, ⟨some 9, [], [(10, 1)]⟩)]⟩
      (by decide) (by decide)
      ⟨by decide,
       by
        intro n hn
        rcases List.mem_cons.mp hn with h | h
        · subst h
          right
          rfl
        · rcases List.mem_cons.mp h with h2 | h2
          · subst h2
            left
            exact ⟨rfl, ⟨⟨none, [], [(10, 1)]⟩, rfl, rfl⟩⟩
          · exact absurd h2 (List.not_mem_nil n),
       by decide, by decide⟩
      (by decide)⟩

end Teriyaki
